import Mathlib

/-!
Verification development for `src/parser/fflogs_parser.py`.

The file embeds the IPC/process-orchestration layer of the repository:
JSON values (the data exchanged with the worker), the command objects
written to the worker's stdin (`run_parser`, lines 168-207), the drain
thread's line decoding (`read_thread`, lines 152-162), the collection
loop with its 10-second deadline (lines 215-230), and the overall
control flow of `run_parser` with its error paths (lines 124-241).

Modelling conventions:
* Python JSON values become the inductive `JVal`; Python dicts are
  association lists in insertion order (JSON objects from `json.loads`
  have unique keys, duplicates keep the last value at the first
  position, mirroring dict assignment).
* Fallible Python code becomes `Except String`/`Option`: an uncaught
  Python exception is `Except.error`.
* Wall-clock time is abstracted: one invocation of the collection loop
  consumes a list of poll results, each `Option JVal` - `some msg` when
  `ipc_queue.get(timeout=0.1)` returned a message, `none` when it raised
  `queue.Empty`.  The list ends exactly when `time.time() < timeout`
  first fails, so exhausting the list is the deadline elapsing, while
  the `break` is an early return before the deadline.
* Floating point JSON numbers are outside the embedding (the protocol
  only carries integers); the JSON parser model rejects them, and
  Python strings holding lone UTF-16 surrogates are outside the
  embedding's string domain.
-/

/-- A JSON value, as produced by Python `json.loads` and consumed by
`json.dumps`.  Objects are association lists in insertion order. -/
inductive JVal where
  | null : JVal
  | bool : Bool → JVal
  | num : Int → JVal
  | str : String → JVal
  | arr : List JVal → JVal
  | obj : List (String × JVal) → JVal
deriving Repr

/-- Python truthiness of a JSON value (`None`, `False`, `0`, `""`, `[]`,
and the empty dict are falsy). -/
def truthy : JVal → Bool
  | .null => false
  | .bool b => b
  | .num n => n != 0
  | .str s => !s.isEmpty
  | .arr xs => !xs.isEmpty
  | .obj kvs => !kvs.isEmpty

/-- Truthiness of `fights_data` / `master_data`, which start as `None`. -/
def truthyOpt : Option JVal → Bool
  | none => false
  | some v => truthy v

/-- Python `msg.get('channel', '')` followed by the string comparisons of
the loop body: a missing key yields `''`; a non-string value compares
unequal to every channel constant, observationally the same as `''`. -/
def chanOf (kvs : List (String × JVal)) : String :=
  match kvs.lookup "channel" with
  | some (.str s) => s
  | _ => ""

/-- Python `msg.get('data', {})`. -/
def dataOf (kvs : List (String × JVal)) : JVal :=
  (kvs.lookup "data").getD (.obj [])

/-- How the collection loop of `run_parser` exited: `satisfied` is the
`break` once both payloads are truthy (before the deadline), `deadline`
is `time.time() < timeout` turning false with the polls exhausted. -/
inductive ExitKind where
  | satisfied : ExitKind
  | deadline : ExitKind
deriving DecidableEq, Repr

/-- The collection loop of `run_parser` (lines 215-230): repeatedly pop
from `ipc_queue`; record `fights_data` on channel `ipc-collect-fights`
and `master_data` on channel `ipc-collect-master-info` (an `elif`);
`break` once `fights_data and master_data` is truthy; `queue.Empty`
(`none`) just continues.  `msg.get` on a non-dict raises
`AttributeError`, which nothing in the loop catches. -/
def collectLoop : List (Option JVal) → Option JVal → Option JVal →
    Except String (Option JVal × Option JVal × ExitKind)
  | [], f, m => .ok (f, m, .deadline)
  | none :: rest, f, m => collectLoop rest f m
  | some msg :: rest, f, m =>
    match msg with
    | .obj kvs =>
      let ch := chanOf kvs
      let d := dataOf kvs
      let fm :=
        if ch = "ipc-collect-fights" then (some d, m)
        else if ch = "ipc-collect-master-info" then (f, some d)
        else (f, m)
      if truthyOpt fm.1 && truthyOpt fm.2 then .ok (fm.1, fm.2, .satisfied)
      else collectLoop rest fm.1 fm.2
    | _ => .error "AttributeError"

/-- The region dict of `run_parser` (line 173):
`{1: "NA", 2: "EU", 3: "JP", 4: "CN", 5: "KR"}`. -/
def regionTable : List (Int × String) :=
  [(1, "NA"), (2, "EU"), (3, "JP"), (4, "CN"), (5, "KR")]

/-- `region_map.get(int(region), "NA")` (line 174); `main` already passes
an `int`, so `int(region)` is the identity. -/
def regionStr (region : Int) : String :=
  (regionTable.lookup region).getD "NA"

/-- Python `l.rstrip('\n\r')` applied to each log line (line 179). -/
def pyRstripNl (s : String) : String :=
  ⟨(s.data.reverse.dropWhile (fun c => c = '\n' || c = '\r')).reverse⟩

/-- The `set-report-code` command dict (line 168). -/
def setReportCodeCmd (reportCode : String) : JVal :=
  .obj [("message", .str "set-report-code"), ("id", .num 0),
        ("reportCode", .str reportCode)]

/-- The `parse-lines` command dict (lines 176-183). -/
def parseLinesCmd (lines : List String) (region : Int) : JVal :=
  .obj [("message", .str "parse-lines"), ("id", .num 1),
        ("lines", .arr (lines.map (fun l => .str (pyRstripNl l)))),
        ("isLive", .bool false),
        ("region", .str (regionStr region)),
        ("selectedFights", .arr [])]

/-- The `collect-fights` command dict (lines 190-195). -/
def collectFightsCmd : JVal :=
  .obj [("message", .str "collect-fights"), ("id", .num 2),
        ("isLive", .bool false), ("forReport", .bool false)]

/-- The `collect-master-info` command dict (lines 202-206). -/
def collectMasterInfoCmd (reportCode : String) : JVal :=
  .obj [("message", .str "collect-master-info"), ("id", .num 3),
        ("reportCode", .str reportCode)]

/-- `fights_data` / `master_data` as they appear inside the returned
dict: Python `None` serializes as JSON `null`. -/
def optJ : Option JVal → JVal
  | none => .null
  | some v => v

/-- The environment of one `run_parser` invocation: every external
effect the function observes, in program order.  `writeOk i` is whether
the `i`-th `proc.stdin.write`/`flush` pair (0-based, lines 168, 176,
190, 202) succeeds or raises (e.g. `BrokenPipeError` after the worker
exited); `polls` is the poll-result stream of the collection loop. -/
structure Env where
  downloadOk : Bool
  scriptExists : Bool
  readLog : Except String (List String)
  spawnOk : Except String Unit
  writeOk : Nat → Bool
  polls : List (Option JVal)

/-- What one `run_parser` invocation did: `outcome` is the returned dict
(`Except.error` when an uncaught exception propagates to the caller
instead), `spawned` whether `subprocess.Popen` succeeded (a Session
exists), `terminated` whether `proc.terminate()` (line 233) ran, and
`sent` the command dicts actually written to the worker's stdin. -/
structure RunResult where
  outcome : Except String JVal
  spawned : Bool
  terminated : Bool
  sent : List JVal
deriving Repr

/-- `run_parser` (lines 121-241).  The early returns before `Popen` are
the error dicts of lines 124-135 and 147-148; after a successful spawn
the four commands are written in order with no exception handling
around the writes, then the collection loop runs, then
`proc.terminate()`, then the outcome is assembled (lines 235-241). -/
def runParser (env : Env) (reportCode : String) (region : Int) : RunResult :=
  if !env.downloadOk then
    ⟨.ok (.obj [("error", .str "Parser download failed")]), false, false, []⟩
  else if !env.scriptExists then
    ⟨.ok (.obj [("error", .str "Parser script not found")]), false, false, []⟩
  else
    match env.readLog with
    | .error e =>
      ⟨.ok (.obj [("error", .str ("Failed to read log file: " ++ e))]),
        false, false, []⟩
    | .ok logLines =>
      match env.spawnOk with
      | .error e =>
        ⟨.ok (.obj [("error", .str ("Failed to start Node.js: " ++ e))]),
          false, false, []⟩
      | .ok _ =>
        if !env.writeOk 0 then ⟨.error "IOError", true, false, []⟩
        else if !env.writeOk 1 then
          ⟨.error "IOError", true, false, [setReportCodeCmd reportCode]⟩
        else if !env.writeOk 2 then
          ⟨.error "IOError", true, false,
            [setReportCodeCmd reportCode, parseLinesCmd logLines region]⟩
        else if !env.writeOk 3 then
          ⟨.error "IOError", true, false,
            [setReportCodeCmd reportCode, parseLinesCmd logLines region,
              collectFightsCmd]⟩
        else
          match collectLoop env.polls none none with
          | .error e =>
            ⟨.error e, true, false,
              [setReportCodeCmd reportCode, parseLinesCmd logLines region,
                collectFightsCmd, collectMasterInfoCmd reportCode]⟩
          | .ok (f, m, _) =>
            let out :=
              if !truthyOpt f || !truthyOpt m then
                JVal.obj [("error", .str "Parser did not return complete data"),
                  ("fights", optJ f), ("master", optJ m)]
              else
                JVal.obj [("fights", optJ f), ("master", optJ m)]
            ⟨.ok out, true, true,
              [setReportCodeCmd reportCode, parseLinesCmd logLines region,
                collectFightsCmd, collectMasterInfoCmd reportCode]⟩

/-- The prefix of commands already written to the worker's stdin when
the `i`-th write (0-based; lines 168, 176, 190, 202) is attempted. -/
def cmdsBefore (reportCode : String) (logLines : List String)
    (region : Int) : Nat → List JVal
  | 0 => []
  | 1 => [setReportCodeCmd reportCode]
  | 2 => [setReportCodeCmd reportCode, parseLinesCmd logLines region]
  | _ + 3 => [setReportCodeCmd reportCode, parseLinesCmd logLines region,
      collectFightsCmd]

/-- A poll result that is an event on channel `c`. -/
def isChanEvt (c : String) : Option JVal → Bool
  | some (.obj kvs) => chanOf kvs == c
  | _ => false

/-- A poll result the loop body survives: either `queue.Empty` or a dict
(`msg.get` raises `AttributeError` on anything else). -/
def isObjPoll : Option JVal → Bool
  | some (.obj _) => true
  | some _ => false
  | none => true

/-- Every event on a mandatory channel carries a Python-truthy payload. -/
def mandTruthy : Option JVal → Bool
  | some (.obj kvs) =>
      if chanOf kvs == "ipc-collect-fights" || chanOf kvs == "ipc-collect-master-info"
      then truthy (dataOf kvs) else true
  | _ => true

/-- The payload of the last event on channel `c` in the poll stream,
defaulting to `init` when the channel never reported. -/
def lastChan (c : String) (polls : List (Option JVal)) (init : Option JVal) :
    Option JVal :=
  polls.foldl (fun acc p =>
    match p with
    | some (.obj kvs) => if chanOf kvs == c then some (dataOf kvs) else acc
    | _ => acc) init

/-- Key access in a decoded JSON object (`v['k']` when present). -/
def jGet (v : JVal) (k : String) : Option JVal :=
  match v with
  | .obj kvs => kvs.lookup k
  | _ => none

/-- An Outcome dict shaped like the success return of `run_parser`
(lines 238-241): both payload keys present, no error descriptor. -/
def isSuccessOutcome (v : JVal) : Bool :=
  match v with
  | .obj kvs =>
      (kvs.lookup "error").isNone && (kvs.lookup "fights").isSome &&
        (kvs.lookup "master").isSome
  | _ => false

/-- A worker response event on the fights channel, as the drain thread
would enqueue it. -/
def fightsEvt (d : JVal) : JVal :=
  .obj [("channel", .str "ipc-collect-fights"), ("id", .num 2), ("data", d)]

/-- A worker response event on the master-info channel. -/
def masterEvt (d : JVal) : JVal :=
  .obj [("channel", .str "ipc-collect-master-info"), ("id", .num 3), ("data", d)]

/-- An environment in which everything before the collection loop
succeeds and the worker produces the given poll stream. -/
def mkEnv (polls : List (Option JVal)) : Env :=
  ⟨true, true, .ok ["00|2024-01-01|log line\n"], .ok (), fun _ => true, polls⟩

/-- Hex digit characters, lowercase, as `json.dumps` emits in `\uXXXX`
escapes (digits double as the decimal digits of integer literals). -/
def hexDigit (n : Nat) : Char :=
  if n < 10 then Char.ofNat (48 + n) else Char.ofNat (87 + n)

/-- The four hex digits of a 16-bit code unit. -/
def hex4 (n : Nat) : List Char :=
  [hexDigit (n / 4096 % 16), hexDigit (n / 256 % 16),
    hexDigit (n / 16 % 16), hexDigit (n % 16)]

/-- A `\uXXXX` escape. -/
def uEsc (n : Nat) : List Char :=
  '\\' :: 'u' :: hex4 n

/-- How `json.dumps` (default `ensure_ascii=True`) renders one character
of a string: `"` and `\` and the five named control escapes specially,
other chars in 0x20-0x7e verbatim, and everything else as `\uXXXX`
(a surrogate pair for code points above 0xFFFF). -/
def escChar (c : Char) : List Char :=
  if c = '"' then ['\\', '"']
  else if c = '\\' then ['\\', '\\']
  else if c = '\n' then ['\\', 'n']
  else if c = '\r' then ['\\', 'r']
  else if c = '\t' then ['\\', 't']
  else if c = Char.ofNat 8 then ['\\', 'b']
  else if c = Char.ofNat 12 then ['\\', 'f']
  else if c.toNat < 32 || 127 ≤ c.toNat then
    if c.toNat < 65536 then uEsc c.toNat
    else uEsc (55296 + (c.toNat - 65536) / 1024) ++
      uEsc (56320 + (c.toNat - 65536) % 1024)
  else [c]

/-- A JSON string literal with its quotes, as `json.dumps` emits it. -/
def encStrChars (s : String) : List Char :=
  '"' :: (s.data.map escChar).flatten ++ ['"']

/-- Decimal digits of a natural number (Python `repr`). -/
def natChars (n : Nat) : List Char :=
  if _h : n < 10 then [hexDigit n]
  else natChars (n / 10) ++ [hexDigit (n % 10)]
decreasing_by exact Nat.div_lt_self (by omega) (by omega)

/-- Decimal rendering of a Python integer. -/
def intChars (i : Int) : List Char :=
  if i < 0 then '-' :: natChars (-i).toNat else natChars i.toNat

mutual

/-- `json.dumps` with its default separators `", "` and `": "` and
`ensure_ascii=True`, on the JSON values of the embedding. -/
def jsonEncode : JVal → List Char
  | .null => "null".data
  | .bool true => "true".data
  | .bool false => "false".data
  | .num i => intChars i
  | .str s => encStrChars s
  | .arr xs => '[' :: encArrItems xs ++ [']']
  | .obj kvs => Char.ofNat 123 :: encObjItems kvs ++ [Char.ofNat 125]

def encArrItems : List JVal → List Char
  | [] => []
  | [x] => jsonEncode x
  | x :: y :: rest => jsonEncode x ++ ',' :: ' ' :: encArrItems (y :: rest)

def encObjItems : List (String × JVal) → List Char
  | [] => []
  | [(k, v)] => encStrChars k ++ ':' :: ' ' :: jsonEncode v
  | (k, v) :: e :: rest =>
    encStrChars k ++ ':' :: ' ' :: jsonEncode v ++ ',' :: ' ' ::
      encObjItems (e :: rest)
end

/-- The whitespace characters `json.loads` skips between tokens. -/
def isJsonWs (c : Char) : Bool :=
  c = ' ' || c = '\t' || c = '\n' || c = '\r'

/-- Skip inter-token whitespace. -/
def skipWs (cs : List Char) : List Char :=
  cs.dropWhile isJsonWs

/-- Value of one hex digit, accepting both cases as `json.loads` does. -/
def hexVal (c : Char) : Option Nat :=
  if 48 ≤ c.val ∧ c.val ≤ 57 then some (c.toNat - 48)
  else if 97 ≤ c.val ∧ c.val ≤ 102 then some (c.toNat - 87)
  else if 65 ≤ c.val ∧ c.val ≤ 70 then some (c.toNat - 55)
  else none

/-- Prepend a decoded character to a string-parse result. -/
def consFst (c : Char) : Option (List Char × List Char) →
    Option (List Char × List Char)
  | some (s, r) => some (c :: s, r)
  | none => none

mutual

/-- The body of a JSON string after the opening quote, per `json.loads`
in strict mode: plain chars up to the closing quote, backslash escapes
via `parseEsc`, raw control characters rejected.  `fuel` decreases on
every step while at least one input character is consumed, so any fuel
above the input length behaves like the unbounded original. -/
def parseStringBody : Nat → List Char → Option (List Char × List Char)
  | 0, _ => none
  | fuel + 1, cs =>
    match cs with
    | [] => none
    | c :: rest =>
      if c = '"' then some ([], rest)
      else if c = '\\' then parseEsc fuel rest
      else if c.toNat < 32 then none
      else consFst c (parseStringBody fuel rest)

/-- A backslash escape: the named escapes, `/`, or `\uXXXX` via
`parseU`; anything else fails as in `json.loads`. -/
def parseEsc : Nat → List Char → Option (List Char × List Char)
  | 0, _ => none
  | fuel + 1, cs =>
    match cs with
    | [] => none
    | e :: rest2 =>
      if e = '"' then consFst '"' (parseStringBody fuel rest2)
      else if e = '\\' then consFst '\\' (parseStringBody fuel rest2)
      else if e = '/' then consFst '/' (parseStringBody fuel rest2)
      else if e = 'b' then consFst (Char.ofNat 8) (parseStringBody fuel rest2)
      else if e = 'f' then consFst (Char.ofNat 12) (parseStringBody fuel rest2)
      else if e = 'n' then consFst '\n' (parseStringBody fuel rest2)
      else if e = 'r' then consFst '\r' (parseStringBody fuel rest2)
      else if e = 't' then consFst '\t' (parseStringBody fuel rest2)
      else if e = 'u' then parseU fuel rest2
      else none

/-- `\uXXXX` after the `\u`: a plain BMP scalar continues the string,
a high surrogate requires an immediately following `\uXXXX` low
surrogate via `parseLowSurr`.  Escapes denoting a lone UTF-16 surrogate
(legal for Python `str`, unrepresentable as Unicode scalar values) are
outside the embedding and rejected here. -/
def parseU : Nat → List Char → Option (List Char × List Char)
  | 0, _ => none
  | fuel + 1, cs =>
    match cs with
    | h1 :: h2 :: h3 :: h4 :: rest3 =>
      (match hexVal h1, hexVal h2, hexVal h3, hexVal h4 with
      | some a, some b, some c2, some d =>
        let n := a * 4096 + b * 256 + c2 * 16 + d
        if 55296 ≤ n ∧ n ≤ 56319 then parseLowSurr n fuel rest3
        else if 56320 ≤ n ∧ n ≤ 57343 then none
        else consFst (Char.ofNat n) (parseStringBody fuel rest3)
      | _, _, _, _ => none)
    | _ => none

/-- The low-surrogate half `\uXXXX` after a high surrogate `n`,
recombined into one supplementary-plane character. -/
def parseLowSurr (n : Nat) : Nat → List Char → Option (List Char × List Char)
  | 0, _ => none
  | fuel + 1, cs =>
    match cs with
    | s1 :: s2 :: g1 :: g2 :: g3 :: g4 :: rest4 =>
      if s1 = '\\' ∧ s2 = 'u' then
        match hexVal g1, hexVal g2, hexVal g3, hexVal g4 with
        | some a2, some b2, some c3, some d2 =>
          let n2 := a2 * 4096 + b2 * 256 + c3 * 16 + d2
          if 56320 ≤ n2 ∧ n2 ≤ 57343 then
            consFst (Char.ofNat (65536 + (n - 55296) * 1024 +
              (n2 - 56320))) (parseStringBody fuel rest4)
          else none
        | _, _, _, _ => none
      else none
    | _ => none

end

/-- Whether a digit immediately follows. -/
def headDigit : List Char → Bool
  | d :: _ => d.isDigit
  | [] => false

/-- The exponent continuation `[-+]?\\d+` of the `json` number regex. -/
def expCont : List Char → Bool
  | [] => false
  | c :: rest => if c = '+' || c = '-' then headDigit rest else c.isDigit

/-- Whether the characters after an integer literal would extend it into
a float per the `json` number regex (`\\.\\d+` or `[eE][-+]?\\d+`);
floats are outside the embedding, so such continuations are rejected. -/
def isFloatCont : List Char → Bool
  | [] => false
  | c :: rest =>
    if c = '.' then headDigit rest
    else if c = 'e' || c = 'E' then expCont rest
    else false

/-- Integer value of a run of decimal digits. -/
def digitsVal (ds : List Char) : Int :=
  ds.foldl (fun acc c => acc * 10 + ((c.toNat : Int) - 48)) 0

/-- Finish a number once its integer part is known: floats are outside
the embedding. -/
def finishNum (neg : Bool) (v : Int) (rest : List Char) :
    Option (JVal × List Char) :=
  if isFloatCont rest then none
  else some (.num (if neg then -v else v), rest)

/-- The unsigned part of an integer literal: `0` or a nonzero digit
followed by digits (no leading zeros - a digit after `0` is left
unconsumed exactly as the `json` number regex leaves it). -/
def parseUNum (neg : Bool) : List Char → Option (JVal × List Char)
  | [] => none
  | c :: rest =>
    if c = '0' then finishNum neg 0 rest
    else if c.isDigit then
      finishNum neg (digitsVal (c :: rest.takeWhile Char.isDigit))
        (rest.dropWhile Char.isDigit)
    else none

/-- An integer literal per the `json` number grammar: optional minus,
then the unsigned part. -/
def parseNum (cs : List Char) : Option (JVal × List Char) :=
  match cs with
  | [] => none
  | c :: rest => if c = '-' then parseUNum true rest else parseUNum false (c :: rest)

/-- One step of building a Python dict from parsed key/value pairs:
assignment replaces the value of an existing key in place, otherwise
appends, exactly as `dict` construction in `json.loads` does. -/
def pyDictInsert (acc : List (String × JVal)) (k : String) (v : JVal) :
    List (String × JVal) :=
  if acc.any (fun kv => kv.1 == k) then
    acc.map (fun kv => if kv.1 == k then (k, v) else kv)
  else acc ++ [(k, v)]

/-- The dict built from parsed pairs (duplicate keys keep the last
value at the first position). -/
def pyDict (pairs : List (String × JVal)) : List (String × JVal) :=
  pairs.foldl (fun acc kv => pyDictInsert acc kv.1 kv.2) []

/-- The keyword `true` after its `t`. -/
def parseTrue : List Char → Option (JVal × List Char)
  | r1 :: r2 :: r3 :: r =>
    if r1 = 'r' ∧ r2 = 'u' ∧ r3 = 'e' then some (.bool true, r) else none
  | _ => none

/-- The keyword `false` after its `f`. -/
def parseFalse : List Char → Option (JVal × List Char)
  | r1 :: r2 :: r3 :: r4 :: r =>
    if r1 = 'a' ∧ r2 = 'l' ∧ r3 = 's' ∧ r4 = 'e' then
      some (.bool false, r)
    else none
  | _ => none

/-- The keyword `null` after its `n`. -/
def parseNull : List Char → Option (JVal × List Char)
  | r1 :: r2 :: r3 :: r =>
    if r1 = 'u' ∧ r2 = 'l' ∧ r3 = 'l' then some (.null, r) else none
  | _ => none

mutual

/-- Recursive descent for one JSON value, mirroring `json.loads`
(strict mode, integers only); `fuel` only bounds the recursion and
decreases strictly on every nested call, so any `fuel` larger than the
input length behaves like the unbounded original. -/
def parseVal : Nat → List Char → Option (JVal × List Char)
  | 0, _ => none
  | fuel + 1, cs =>
    match cs with
    | [] => none
    | c :: rest =>
      if c = Char.ofNat 123 then
        match skipWs rest with
        | d :: rest2 =>
          if d = Char.ofNat 125 then some (.obj [], rest2)
          else
            match objLoop fuel (d :: rest2) with
            | some (kvs, r) => some (.obj (pyDict kvs), r)
            | none => none
        | [] => none
      else if c = '[' then
        match skipWs rest with
        | d :: rest2 =>
          if d = ']' then some (.arr [], rest2)
          else
            match arrLoop fuel (d :: rest2) with
            | some (vs, r) => some (.arr vs, r)
            | none => none
        | [] => none
      else if c = '"' then
        match parseStringBody (rest.length + 1) rest with
        | some (scs, rest2) => some (.str ⟨scs⟩, rest2)
        | none => none
      else if c = 't' then parseTrue rest
      else if c = 'f' then parseFalse rest
      else if c = 'n' then parseNull rest
      else parseNum (c :: rest)

def arrLoop : Nat → List Char → Option (List JVal × List Char)
  | 0, _ => none
  | fuel + 1, cs =>
    match parseVal fuel cs with
    | some (v, rest) =>
      match skipWs rest with
      | d :: rest2 =>
        if d = ',' then
          match arrLoop fuel (skipWs rest2) with
          | some (vs, r) => some (v :: vs, r)
          | none => none
        else if d = ']' then some ([v], rest2)
        else none
      | [] => none
    | none => none

def objLoop : Nat → List Char → Option (List (String × JVal) × List Char)
  | 0, _ => none
  | fuel + 1, cs =>
    match cs with
    | [] => none
    | c :: rest =>
      if c = '"' then
        match parseStringBody (rest.length + 1) rest with
        | some (kcs, rest2) =>
          match skipWs rest2 with
          | d :: rest3 =>
            if d = ':' then
              match parseVal fuel (skipWs rest3) with
              | some (v, rest4) =>
                match skipWs rest4 with
                | e :: rest5 =>
                  if e = ',' then
                    match objLoop fuel (skipWs rest5) with
                    | some (kvs, r) => some ((⟨kcs⟩, v) :: kvs, r)
                    | none => none
                  else if e = Char.ofNat 125 then some ([(⟨kcs⟩, v)], rest5)
                  else none
                | [] => none
              | none => none
            else none
          | [] => none
        | none => none
      else none
end

/-- Python `str.strip()` on the ASCII whitespace the protocol can
produce (line terminators and blanks; exotic Unicode spaces do not
occur in the worker's output lines). -/
def pyIsSpace (c : Char) : Bool :=
  c = ' ' || c = '\t' || c = '\n' || c = '\r' ||
    c = Char.ofNat 11 || c = Char.ofNat 12

/-- `line.strip()`. -/
def pyStrip (s : String) : String :=
  ⟨((s.data.dropWhile pyIsSpace).reverse.dropWhile pyIsSpace).reverse⟩

/-- Python slicing by code points: `line[:n]`. -/
def strTake (s : String) (n : Nat) : String :=
  ⟨s.data.take n⟩

/-- Python slicing by code points: `line[n:]`. -/
def strDrop (s : String) (n : Nat) : String :=
  ⟨s.data.drop n⟩

/-- `json.loads`: skip surrounding whitespace, parse exactly one value,
and reject trailing garbage.  The fuel `length + 1` strictly exceeds
the number of recursive-descent steps any input of this length can
drive, since every step consumes at least one character before the
next. -/
def jsonParse (s : String) : Option JVal :=
  match parseVal (s.data.length + 1) (skipWs s.data) with
  | some (v, rest) => if skipWs rest = [] then some v else none
  | none => none

/-- One iteration of the drain thread `read_thread` (lines 152-162) on
one line: lines not starting with the `__IPC__:` sentinel are ignored,
and a sentinel line whose remainder fails to decode is swallowed by the
bare `except` - the model is a total function, so no error can reach
the caller. -/
def decodeLine (line : String) : Option JVal :=
  if strTake line 8 = "__IPC__:" then jsonParse (pyStrip (strDrop line 8))
  else none

/-- The whole drain loop: read lines until the first empty read
(end-of-stream), decode each, and enqueue every decoded event. -/
def drainOutput (lines : List String) : List JVal :=
  (lines.takeWhile (fun l => !l.isEmpty)).filterMap decodeLine

/-- The exact line written to the worker's stdin for a command
(`json.dumps(...) + "\n"`, lines 168, 176, 190, 202). -/
def encodeCommand (cmd : JVal) : String :=
  ⟨jsonEncode cmd⟩ ++ "\n"

/-- A character that may legally follow an encoded integer literal:
none, or one that neither extends the digit run nor begins a float
continuation. -/
def numStop : List Char → Bool
  | [] => true
  | c :: _ => !(c.isDigit || c = '.' || c = 'e' || c = 'E')

/-- Unique keys in an object, the shape every dict really built by
Python has. -/
def keysNodup : List (String × JVal) → Bool
  | [] => true
  | (k, _) :: rest => !(rest.any (fun kv => kv.1 == k)) && keysNodup rest

mutual

/-- Well-formed JSON values of the embedding: every object has unique
keys (a Python dict can hold nothing else). -/
def wfJ : JVal → Bool
  | .null => true
  | .bool _ => true
  | .num _ => true
  | .str _ => true
  | .arr xs => wfArr xs
  | .obj kvs => keysNodup kvs && wfObj kvs

def wfArr : List JVal → Bool
  | [] => true
  | x :: r => wfJ x && wfArr r

def wfObj : List (String × JVal) → Bool
  | [] => true
  | (_, v) :: r => wfJ v && wfObj r

end

theorem truthyOpt_some (v : JVal) : truthyOpt (some v) = truthy v := rfl

theorem truthyOpt_none : truthyOpt none = false := rfl

theorem truthyOpt_eq_true {x : Option JVal} (h : truthyOpt x = true) :
    ∃ v, x = some v ∧ truthy v = true := by
  cases x with
  | none => simp [truthyOpt] at h
  | some v => exact ⟨v, rfl, h⟩

theorem collectLoop_cons_none (rest : List (Option JVal)) (f m : Option JVal) :
    collectLoop (none :: rest) f m = collectLoop rest f m := rfl

theorem collectLoop_cons_fights {kvs : List (String × JVal)}
    (rest : List (Option JVal)) (f m : Option JVal)
    (h : chanOf kvs = "ipc-collect-fights") :
    collectLoop (some (.obj kvs) :: rest) f m =
      if truthy (dataOf kvs) && truthyOpt m then
        .ok (some (dataOf kvs), m, .satisfied)
      else collectLoop rest (some (dataOf kvs)) m := by
  simp [collectLoop, h, truthyOpt_some]

theorem collectLoop_cons_master {kvs : List (String × JVal)}
    (rest : List (Option JVal)) (f m : Option JVal)
    (h : chanOf kvs = "ipc-collect-master-info") :
    collectLoop (some (.obj kvs) :: rest) f m =
      if truthyOpt f && truthy (dataOf kvs) then
        .ok (f, some (dataOf kvs), .satisfied)
      else collectLoop rest f (some (dataOf kvs)) := by
  have hne : chanOf kvs ≠ "ipc-collect-fights" := by
    rw [h]; decide
  simp [collectLoop, h, hne, truthyOpt_some]

theorem collectLoop_cons_other {kvs : List (String × JVal)}
    (rest : List (Option JVal)) (f m : Option JVal)
    (h1 : chanOf kvs ≠ "ipc-collect-fights")
    (h2 : chanOf kvs ≠ "ipc-collect-master-info") :
    collectLoop (some (.obj kvs) :: rest) f m =
      if truthyOpt f && truthyOpt m then .ok (f, m, .satisfied)
      else collectLoop rest f m := by
  simp [collectLoop, h1, h2]

theorem collectLoop_satisfied_of_events :
    ∀ (polls : List (Option JVal)) (f0 m0 : Option JVal),
    (∀ p ∈ polls, isObjPoll p = true) →
    (∀ p ∈ polls, mandTruthy p = true) →
    ((∃ p ∈ polls, isChanEvt "ipc-collect-fights" p = true) ∨ truthyOpt f0 = true) →
    ((∃ p ∈ polls, isChanEvt "ipc-collect-master-info" p = true) ∨ truthyOpt m0 = true) →
    (truthyOpt f0 && truthyOpt m0) = false →
    ∃ fv mv, collectLoop polls f0 m0 = .ok (some fv, some mv, .satisfied) ∧
      truthy fv = true ∧ truthy mv = true := by
  intro polls
  induction polls with
  | nil =>
    intro f0 m0 _ _ hf hm hnb
    rcases hf with ⟨p, hp, _⟩ | hf
    · exact absurd hp (List.not_mem_nil p)
    rcases hm with ⟨p, hp, _⟩ | hm
    · exact absurd hp (List.not_mem_nil p)
    rw [hf, hm] at hnb
    simp at hnb
  | cons p rest ih =>
    intro f0 m0 hobj htr hf hm hnb
    have hfr : (∃ q ∈ rest, isChanEvt "ipc-collect-fights" q = true) ∨
        (isChanEvt "ipc-collect-fights" p = true) ∨ truthyOpt f0 = true := by
      rcases hf with ⟨q, hq, hcq⟩ | hf
      · rcases List.mem_cons.mp hq with rfl | hq
        · exact Or.inr (Or.inl hcq)
        · exact Or.inl ⟨q, hq, hcq⟩
      · exact Or.inr (Or.inr hf)
    have hmr : (∃ q ∈ rest, isChanEvt "ipc-collect-master-info" q = true) ∨
        (isChanEvt "ipc-collect-master-info" p = true) ∨ truthyOpt m0 = true := by
      rcases hm with ⟨q, hq, hcq⟩ | hm
      · rcases List.mem_cons.mp hq with rfl | hq
        · exact Or.inr (Or.inl hcq)
        · exact Or.inl ⟨q, hq, hcq⟩
      · exact Or.inr (Or.inr hm)
    have hobjr : ∀ q ∈ rest, isObjPoll q = true :=
      fun q hq => hobj q (List.mem_cons_of_mem _ hq)
    have htrr : ∀ q ∈ rest, mandTruthy q = true :=
      fun q hq => htr q (List.mem_cons_of_mem _ hq)
    cases p with
    | none =>
      rw [collectLoop_cons_none]
      refine ih f0 m0 hobjr htrr ?_ ?_ hnb
      · rcases hfr with h | h | h
        · exact Or.inl h
        · simp [isChanEvt] at h
        · exact Or.inr h
      · rcases hmr with h | h | h
        · exact Or.inl h
        · simp [isChanEvt] at h
        · exact Or.inr h
    | some msg =>
      have hobjp := hobj (some msg) (List.mem_cons_self _ _)
      cases msg with
      | obj kvs =>
        by_cases hch : chanOf kvs = "ipc-collect-fights"
        · have htrd : truthy (dataOf kvs) = true := by
            have := htr (some (.obj kvs)) (List.mem_cons_self _ _)
            simpa [mandTruthy, hch] using this
          rw [collectLoop_cons_fights rest f0 m0 hch]
          cases hm0 : truthyOpt m0 with
          | true =>
            obtain ⟨mv, rfl, hmv⟩ := truthyOpt_eq_true hm0
            rw [truthyOpt_some] at hm0
            refine ⟨dataOf kvs, mv, ?_, htrd, hmv⟩
            simp [htrd, truthyOpt_some, hmv]
          | false =>
            rw [htrd]
            rw [if_neg (by simp)]
            refine ih (some (dataOf kvs)) m0 hobjr htrr
              (Or.inr (by rw [truthyOpt_some, htrd]))
              ?_ (by rw [hm0, Bool.and_false])
            rcases hmr with h | h | h
            · exact Or.inl h
            · exfalso
              have : chanOf kvs = "ipc-collect-master-info" := by
                simpa [isChanEvt] using h
              rw [hch] at this
              simp at this
            · rw [h] at hm0
              simp at hm0
        · by_cases hch2 : chanOf kvs = "ipc-collect-master-info"
          · have htrd : truthy (dataOf kvs) = true := by
              have := htr (some (.obj kvs)) (List.mem_cons_self _ _)
              simpa [mandTruthy, hch2] using this
            rw [collectLoop_cons_master rest f0 m0 hch2]
            cases hf0 : truthyOpt f0 with
            | true =>
              obtain ⟨fv, rfl, hfv⟩ := truthyOpt_eq_true hf0
              rw [truthyOpt_some] at hf0
              refine ⟨fv, dataOf kvs, ?_, hfv, htrd⟩
              simp [htrd, truthyOpt_some, hfv]
            | false =>
              rw [htrd]
              rw [if_neg (by simp)]
              refine ih f0 (some (dataOf kvs)) hobjr htrr ?_
                (Or.inr (by rw [truthyOpt_some, htrd]))
                (by rw [hf0, Bool.false_and])
              rcases hfr with h | h | h
              · exact Or.inl h
              · exfalso
                exact hch (by simpa [isChanEvt] using h)
              · rw [h] at hf0
                simp at hf0
          · rw [collectLoop_cons_other rest f0 m0 hch hch2, hnb]
            rw [if_neg (by simp)]
            refine ih f0 m0 hobjr htrr ?_ ?_ hnb
            · rcases hfr with h | h | h
              · exact Or.inl h
              · exact absurd (by simpa [isChanEvt] using h) hch
              · exact Or.inr h
            · rcases hmr with h | h | h
              · exact Or.inl h
              · exact absurd (by simpa [isChanEvt] using h) hch2
              · exact Or.inr h
      | null => simp [isObjPoll] at hobjp
      | bool b => simp [isObjPoll] at hobjp
      | num n => simp [isObjPoll] at hobjp
      | str s => simp [isObjPoll] at hobjp
      | arr xs => simp [isObjPoll] at hobjp

theorem collectLoop_fights_provenance :
    ∀ (polls : List (Option JVal)) (f0 m0 f m : Option JVal) (ex : ExitKind),
    collectLoop polls f0 m0 = .ok (f, m, ex) →
    f = f0 ∨ ∃ kvs, some (.obj kvs) ∈ polls ∧
      chanOf kvs = "ipc-collect-fights" ∧ f = some (dataOf kvs) := by
  intro polls
  induction polls with
  | nil =>
    intro f0 m0 f m ex h
    simp [collectLoop] at h
    exact Or.inl h.1.symm
  | cons p rest ih =>
    intro f0 m0 f m ex h
    have weaken : (f = f0 ∨ ∃ kvs, some (.obj kvs) ∈ rest ∧
        chanOf kvs = "ipc-collect-fights" ∧ f = some (dataOf kvs)) →
        f = f0 ∨ ∃ kvs, some (.obj kvs) ∈ p :: rest ∧
          chanOf kvs = "ipc-collect-fights" ∧ f = some (dataOf kvs) := by
      rintro (h | ⟨kvs, hmem, hc, hval⟩)
      · exact Or.inl h
      · exact Or.inr ⟨kvs, List.mem_cons_of_mem _ hmem, hc, hval⟩
    cases p with
    | none => exact weaken (ih f0 m0 f m ex (by rwa [collectLoop_cons_none] at h))
    | some msg =>
      cases msg with
      | obj kvs =>
        by_cases hch : chanOf kvs = "ipc-collect-fights"
        · rw [collectLoop_cons_fights rest f0 m0 hch] at h
          by_cases hcond : (truthy (dataOf kvs) && truthyOpt m0) = true
          · rw [if_pos hcond] at h
            have : f = some (dataOf kvs) := by
              injection h with h'
              exact (congrArg Prod.fst h').symm
            exact Or.inr ⟨kvs, List.mem_cons_self _ _, hch, this⟩
          · rw [if_neg hcond] at h
            rcases ih _ _ _ _ _ h with h' | ⟨kvs', hmem, hc, hval⟩
            · exact Or.inr ⟨kvs, List.mem_cons_self _ _, hch, h'⟩
            · exact Or.inr ⟨kvs', List.mem_cons_of_mem _ hmem, hc, hval⟩
        · by_cases hch2 : chanOf kvs = "ipc-collect-master-info"
          · rw [collectLoop_cons_master rest f0 m0 hch2] at h
            by_cases hcond : (truthyOpt f0 && truthy (dataOf kvs)) = true
            · rw [if_pos hcond] at h
              injection h with h'
              exact Or.inl (congrArg Prod.fst h').symm
            · rw [if_neg hcond] at h
              exact weaken (ih _ _ _ _ _ h)
          · rw [collectLoop_cons_other rest f0 m0 hch hch2] at h
            by_cases hcond : (truthyOpt f0 && truthyOpt m0) = true
            · rw [if_pos hcond] at h
              injection h with h'
              exact Or.inl (congrArg Prod.fst h').symm
            · rw [if_neg hcond] at h
              exact weaken (ih _ _ _ _ _ h)
      | null => simp [collectLoop] at h
      | bool b => simp [collectLoop] at h
      | num n => simp [collectLoop] at h
      | str s => simp [collectLoop] at h
      | arr xs => simp [collectLoop] at h

theorem collectLoop_master_provenance :
    ∀ (polls : List (Option JVal)) (f0 m0 f m : Option JVal) (ex : ExitKind),
    collectLoop polls f0 m0 = .ok (f, m, ex) →
    m = m0 ∨ ∃ kvs, some (.obj kvs) ∈ polls ∧
      chanOf kvs = "ipc-collect-master-info" ∧ m = some (dataOf kvs) := by
  intro polls
  induction polls with
  | nil =>
    intro f0 m0 f m ex h
    simp [collectLoop] at h
    exact Or.inl h.2.1.symm
  | cons p rest ih =>
    intro f0 m0 f m ex h
    have weaken : (m = m0 ∨ ∃ kvs, some (.obj kvs) ∈ rest ∧
        chanOf kvs = "ipc-collect-master-info" ∧ m = some (dataOf kvs)) →
        m = m0 ∨ ∃ kvs, some (.obj kvs) ∈ p :: rest ∧
          chanOf kvs = "ipc-collect-master-info" ∧ m = some (dataOf kvs) := by
      rintro (h | ⟨kvs, hmem, hc, hval⟩)
      · exact Or.inl h
      · exact Or.inr ⟨kvs, List.mem_cons_of_mem _ hmem, hc, hval⟩
    cases p with
    | none => exact weaken (ih f0 m0 f m ex (by rwa [collectLoop_cons_none] at h))
    | some msg =>
      cases msg with
      | obj kvs =>
        by_cases hch : chanOf kvs = "ipc-collect-fights"
        · rw [collectLoop_cons_fights rest f0 m0 hch] at h
          by_cases hcond : (truthy (dataOf kvs) && truthyOpt m0) = true
          · rw [if_pos hcond] at h
            injection h with h'
            exact Or.inl (congrArg (fun q => q.2.1) h').symm
          · rw [if_neg hcond] at h
            exact weaken (ih _ _ _ _ _ h)
        · by_cases hch2 : chanOf kvs = "ipc-collect-master-info"
          · rw [collectLoop_cons_master rest f0 m0 hch2] at h
            by_cases hcond : (truthyOpt f0 && truthy (dataOf kvs)) = true
            · rw [if_pos hcond] at h
              have : m = some (dataOf kvs) := by
                injection h with h'
                exact (congrArg (fun q => q.2.1) h').symm
              exact Or.inr ⟨kvs, List.mem_cons_self _ _, hch2, this⟩
            · rw [if_neg hcond] at h
              rcases ih _ _ _ _ _ h with h' | ⟨kvs', hmem, hc, hval⟩
              · exact Or.inr ⟨kvs, List.mem_cons_self _ _, hch2, h'⟩
              · exact Or.inr ⟨kvs', List.mem_cons_of_mem _ hmem, hc, hval⟩
          · rw [collectLoop_cons_other rest f0 m0 hch hch2] at h
            by_cases hcond : (truthyOpt f0 && truthyOpt m0) = true
            · rw [if_pos hcond] at h
              injection h with h'
              exact Or.inl (congrArg (fun q => q.2.1) h').symm
            · rw [if_neg hcond] at h
              exact weaken (ih _ _ _ _ _ h)
      | null => simp [collectLoop] at h
      | bool b => simp [collectLoop] at h
      | num n => simp [collectLoop] at h
      | str s => simp [collectLoop] at h
      | arr xs => simp [collectLoop] at h

theorem lastChan_cons_none (c : String) (rest : List (Option JVal))
    (init : Option JVal) :
    lastChan c (none :: rest) init = lastChan c rest init := rfl

theorem lastChan_cons_obj (c : String) (kvs : List (String × JVal))
    (rest : List (Option JVal)) (init : Option JVal) :
    lastChan c (some (.obj kvs) :: rest) init =
      lastChan c rest (if chanOf kvs == c then some (dataOf kvs) else init) := rfl

theorem collectLoop_deadline_lastChan :
    ∀ (polls : List (Option JVal)) (f0 m0 f m : Option JVal),
    collectLoop polls f0 m0 = .ok (f, m, .deadline) →
    f = lastChan "ipc-collect-fights" polls f0 ∧
      m = lastChan "ipc-collect-master-info" polls m0 := by
  intro polls
  induction polls with
  | nil =>
    intro f0 m0 f m h
    simp [collectLoop] at h
    simp [lastChan, h.1.symm, h.2.symm]
  | cons p rest ih =>
    intro f0 m0 f m h
    cases p with
    | none =>
      rw [collectLoop_cons_none] at h
      rw [lastChan_cons_none, lastChan_cons_none]
      exact ih f0 m0 f m h
    | some msg =>
      cases msg with
      | obj kvs =>
        by_cases hch : chanOf kvs = "ipc-collect-fights"
        · rw [collectLoop_cons_fights rest f0 m0 hch] at h
          by_cases hcond : (truthy (dataOf kvs) && truthyOpt m0) = true
          · rw [if_pos hcond] at h
            simp at h
          · rw [if_neg hcond] at h
            have := ih _ _ _ _ h
            rw [lastChan_cons_obj, lastChan_cons_obj, hch]
            simpa using this
        · by_cases hch2 : chanOf kvs = "ipc-collect-master-info"
          · rw [collectLoop_cons_master rest f0 m0 hch2] at h
            by_cases hcond : (truthyOpt f0 && truthy (dataOf kvs)) = true
            · rw [if_pos hcond] at h
              simp at h
            · rw [if_neg hcond] at h
              have := ih _ _ _ _ h
              rw [lastChan_cons_obj, lastChan_cons_obj, hch2]
              have hne : ("ipc-collect-master-info" == "ipc-collect-fights") = false := by
                decide
              simpa [hne] using this
          · rw [collectLoop_cons_other rest f0 m0 hch hch2] at h
            by_cases hcond : (truthyOpt f0 && truthyOpt m0) = true
            · rw [if_pos hcond] at h
              simp at h
            · rw [if_neg hcond] at h
              have := ih _ _ _ _ h
              rw [lastChan_cons_obj, lastChan_cons_obj]
              have hne1 : (chanOf kvs == "ipc-collect-fights") = false := by
                simpa using hch
              have hne2 : (chanOf kvs == "ipc-collect-master-info") = false := by
                simpa using hch2
              simpa [hne1, hne2] using this
      | null => simp [collectLoop] at h
      | bool b => simp [collectLoop] at h
      | num n => simp [collectLoop] at h
      | str s => simp [collectLoop] at h
      | arr xs => simp [collectLoop] at h

theorem runParser_after_spawn (env : Env) (reportCode : String) (region : Int)
    (logLines : List String)
    (hd : env.downloadOk = true) (hs : env.scriptExists = true)
    (hr : env.readLog = .ok logLines) (hsp : env.spawnOk = .ok ())
    (hw : ∀ i, env.writeOk i = true)
    (f m : Option JVal) (ex : ExitKind)
    (hloop : collectLoop env.polls none none = .ok (f, m, ex)) :
    runParser env reportCode region =
      ⟨.ok (if !truthyOpt f || !truthyOpt m then
          .obj [("error", .str "Parser did not return complete data"),
            ("fights", optJ f), ("master", optJ m)]
        else .obj [("fights", optJ f), ("master", optJ m)]), true, true,
        [setReportCodeCmd reportCode, parseLinesCmd logLines region,
          collectFightsCmd, collectMasterInfoCmd reportCode]⟩ := by
  unfold runParser
  rw [hd, hs, hr, hsp, hloop]
  simp [hw 0, hw 1, hw 2, hw 3]

/-- C10: for every integer region code outside {1,2,3,4,5} the
`parse-lines` command submitted to the worker carries the default region
string "NA", and codes 1-5 carry "NA", "EU", "JP", "CN", "KR". -/
theorem c10_region_code_mapping (lines : List String) (r : Int)
    (h : r ∉ ([1, 2, 3, 4, 5] : List Int)) :
    jGet (parseLinesCmd lines r) "region" = some (.str "NA") ∧
    jGet (parseLinesCmd lines 1) "region" = some (.str "NA") ∧
    jGet (parseLinesCmd lines 2) "region" = some (.str "EU") ∧
    jGet (parseLinesCmd lines 3) "region" = some (.str "JP") ∧
    jGet (parseLinesCmd lines 4) "region" = some (.str "CN") ∧
    jGet (parseLinesCmd lines 5) "region" = some (.str "KR") := by
  have base : ∀ (ls : List String) (rc : Int),
      jGet (parseLinesCmd ls rc) "region" = some (.str (regionStr rc)) :=
    fun _ _ => rfl
  simp only [List.mem_cons, List.not_mem_nil, or_false, not_or] at h
  obtain ⟨h1, h2, h3, h4, h5⟩ := h
  refine ⟨?_, rfl, rfl, rfl, rfl, rfl⟩
  rw [base]
  have hr : regionStr r = "NA" := by
    simp [regionStr, regionTable, List.lookup,
      beq_eq_false_iff_ne.mpr h1, beq_eq_false_iff_ne.mpr h2,
      beq_eq_false_iff_ne.mpr h3, beq_eq_false_iff_ne.mpr h4,
      beq_eq_false_iff_ne.mpr h5]
  rw [hr]

/-- C10 witness: region code 99 is outside the table and the
`parse-lines` command then carries "NA". -/
theorem c10_region_code_mapping_witness :
    jGet (parseLinesCmd ["a\n"] 99) "region" = some (.str "NA") ∧
    jGet (parseLinesCmd ["a\n"] 1) "region" = some (.str "NA") ∧
    jGet (parseLinesCmd ["a\n"] 2) "region" = some (.str "EU") ∧
    jGet (parseLinesCmd ["a\n"] 3) "region" = some (.str "JP") ∧
    jGet (parseLinesCmd ["a\n"] 4) "region" = some (.str "CN") ∧
    jGet (parseLinesCmd ["a\n"] 5) "region" = some (.str "KR") :=
  c10_region_code_mapping ["a\n"] 99 (by decide)

/-- C8: whenever the worker image cannot be located (download failed or
the bundle file is absent) or the worker process cannot be spawned,
`run_parser` surfaces the launch failure immediately as an
error-descriptor Outcome: no command is sent, no Session (process
handle) is created, and the Outcome carries no collected payloads. -/
theorem c8_launch_error_before_commands (env : Env) (reportCode : String)
    (region : Int)
    (h : env.downloadOk = false ∨ env.scriptExists = false ∨
      ∃ e, env.spawnOk = .error e) :
    (runParser env reportCode region).spawned = false ∧
    (runParser env reportCode region).sent = [] ∧
    ∃ emsg, (runParser env reportCode region).outcome =
      .ok (.obj [("error", .str emsg)]) := by
  obtain ⟨dOk, sEx, rLog, spOk, wOk, polls⟩ := env
  cases dOk with
  | false =>
    exact ⟨rfl, rfl, "Parser download failed", rfl⟩
  | true =>
    rcases h with h | h | ⟨e, he⟩
    · exact absurd h (by simp)
    · cases sEx with
      | false => exact ⟨rfl, rfl, "Parser script not found", rfl⟩
      | true => exact absurd h (by simp)
    · cases sEx with
      | false => exact ⟨rfl, rfl, "Parser script not found", rfl⟩
      | true =>
        cases rLog with
        | error eL =>
          exact ⟨rfl, rfl, "Failed to read log file: " ++ eL, rfl⟩
        | ok logLines =>
          simp only at he
          subst he
          exact ⟨rfl, rfl, "Failed to start Node.js: " ++ e, rfl⟩

/-- C8 witness: with the bundle download failing, `run_parser` returns
the download-failure descriptor with nothing sent and no process. -/
theorem c8_launch_error_before_commands_witness :
    (runParser ⟨false, true, .ok ["a\n"], .ok (), fun _ => true, []⟩
      "R8" 1).spawned = false ∧
    (runParser ⟨false, true, .ok ["a\n"], .ok (), fun _ => true, []⟩
      "R8" 1).sent = [] ∧
    ∃ emsg, (runParser ⟨false, true, .ok ["a\n"], .ok (), fun _ => true, []⟩
      "R8" 1).outcome = .ok (.obj [("error", .str emsg)]) :=
  c8_launch_error_before_commands _ "R8" 1 (Or.inl rfl)

/-- C7 counterexample: with the second stdin write failing (worker
exited after the first command), `run_parser` does not return a
structured Outcome built from the events already received - the write
failure propagates to the caller as an unhandled fault, because lines
168-207 have no exception handling around the writes. -/
theorem c7_counterexample :
    (runParser ⟨true, true, .ok ["a\n"], .ok (), fun i => i != 1,
      [some (fightsEvt (.obj [("pull", .num 1)]))]⟩ "R7" 1).outcome =
      .error "IOError" ∧
    (runParser ⟨true, true, .ok ["a\n"], .ok (), fun i => i != 1,
      [some (fightsEvt (.obj [("pull", .num 1)]))]⟩ "R7" 1).sent =
      [setReportCodeCmd "R7"] ∧
    (runParser ⟨true, true, .ok ["a\n"], .ok (), fun i => i != 1,
      [some (fightsEvt (.obj [("pull", .num 1)]))]⟩ "R7" 1).terminated =
      false :=
  ⟨rfl, rfl, rfl⟩

/-- C7 (amended): for every run in which some write to the worker's
stdin fails mid-session - `i` being the first of the four writes to
fail - `run_parser` stops sequencing further commands (exactly the
commands before the `i`-th write were sent), but instead of returning
a structured Outcome the uncaught exception propagates to the caller
and the worker is not terminated. -/
theorem c7_write_failure_propagates (env : Env) (reportCode : String)
    (region : Int) (logLines : List String) (i : Nat)
    (hd : env.downloadOk = true) (hs : env.scriptExists = true)
    (hr : env.readLog = .ok logLines) (hsp : env.spawnOk = .ok ())
    (hi : i < 4) (hfail : env.writeOk i = false)
    (hpre : ∀ j, j < i → env.writeOk j = true) :
    runParser env reportCode region =
      ⟨.error "IOError", true, false,
        cmdsBefore reportCode logLines region i⟩ := by
  unfold runParser
  rw [hd, hs, hr, hsp]
  interval_cases i
  · simp [hfail, cmdsBefore]
  · simp [hpre 0 (by omega), hfail, cmdsBefore]
  · simp [hpre 0 (by omega), hpre 1 (by omega), hfail, cmdsBefore]
  · simp [hpre 0 (by omega), hpre 1 (by omega), hpre 2 (by omega), hfail,
      cmdsBefore]

/-- C7 witness: concrete runs whose first and whose fourth write fail
each raise, sending exactly the commands already written. -/
theorem c7_write_failure_propagates_witness :
    runParser ⟨true, true, .ok ["b\n"], .ok (), fun _ => false, []⟩
      "R7W" 2 = ⟨.error "IOError", true, false, []⟩ ∧
    runParser ⟨true, true, .ok ["b\n"], .ok (), fun i => i != 3, []⟩
      "R7W" 2 = ⟨.error "IOError", true, false,
        [setReportCodeCmd "R7W", parseLinesCmd ["b\n"] 2,
          collectFightsCmd]⟩ :=
  ⟨c7_write_failure_propagates _ "R7W" 2 ["b\n"] 0 rfl rfl rfl rfl
      (by omega) rfl (fun j hj => absurd hj (by omega)),
    c7_write_failure_propagates _ "R7W" 2 ["b\n"] 3 rfl rfl rfl rfl
      (by omega) rfl (fun j hj => by interval_cases j <;> rfl)⟩

/-- C6 counterexample: after a successful spawn, the exit path taken
when the first stdin write fails neither terminates the worker nor
returns an Outcome - the exception propagates with `proc.terminate()`
(line 233) never reached. -/
theorem c6_counterexample :
    (runParser ⟨true, true, .ok ["a\n"], .ok (), fun _ => false, []⟩
      "R6" 1).spawned = true ∧
    (runParser ⟨true, true, .ok ["a\n"], .ok (), fun _ => false, []⟩
      "R6" 1).terminated = false ∧
    (runParser ⟨true, true, .ok ["a\n"], .ok (), fun _ => false, []⟩
      "R6" 1).outcome = .error "IOError" :=
  ⟨rfl, rfl, rfl⟩

/-- C6 (amended): on every exit path after a successful spawn in which
the four stdin writes succeed and every event consumed by the collection
loop is a mapping, the worker is terminated and exactly one Outcome dict
is returned; a failed stdin write instead propagates an exception
without terminating the worker. -/
theorem c6_terminated_and_single_outcome (env : Env) (reportCode : String)
    (region : Int) (logLines : List String)
    (hd : env.downloadOk = true) (hs : env.scriptExists = true)
    (hr : env.readLog = .ok logLines) (hsp : env.spawnOk = .ok ())
    (hw : ∀ i, env.writeOk i = true)
    (f m : Option JVal) (ex : ExitKind)
    (hloop : collectLoop env.polls none none = .ok (f, m, ex)) :
    (runParser env reportCode region).terminated = true ∧
    ∃ v, (runParser env reportCode region).outcome = .ok v := by
  rw [runParser_after_spawn env reportCode region logLines hd hs hr hsp hw
    f m ex hloop]
  exact ⟨rfl, _, rfl⟩

/-- C6 witness: a concrete run that reaches the loop terminates the
worker and returns one Outcome. -/
theorem c6_terminated_and_single_outcome_witness :
    (runParser (mkEnv [some (fightsEvt (.obj [("pull", .num 1)]))])
      "R6W" 1).terminated = true ∧
    ∃ v, (runParser (mkEnv [some (fightsEvt (.obj [("pull", .num 1)]))])
      "R6W" 1).outcome = .ok v :=
  c6_terminated_and_single_outcome _ "R6W" 1 ["00|2024-01-01|log line\n"]
    rfl rfl rfl rfl (fun _ => rfl)
    (some (.obj [("pull", .num 1)])) none .deadline rfl

/-- C5 counterexample: a recorded payload IS overwritten by a later
event on the same channel.  After the first fights event the loop has
recorded `{"pull": 1}`; running the full stream with a second fights
event ends with `{"pull": 2}` recorded instead, before the loop
completes via the `break`. -/
theorem c5_counterexample :
    collectLoop [some (fightsEvt (.obj [("pull", .num 1)]))] none none =
      .ok (some (.obj [("pull", .num 1)]), none, .deadline) ∧
    collectLoop [some (fightsEvt (.obj [("pull", .num 1)])),
        some (fightsEvt (.obj [("pull", .num 2)])),
        some (masterEvt (.obj [("zone", .num 9)]))] none none =
      .ok (some (.obj [("pull", .num 2)]),
        some (.obj [("zone", .num 9)]), .satisfied) ∧
    JVal.obj [("pull", .num 1)] ≠ JVal.obj [("pull", .num 2)] := by
  refine ⟨rfl, rfl, ?_⟩
  intro hcontra
  simp only [JVal.obj.injEq, List.cons.injEq, Prod.mk.injEq,
    JVal.num.injEq, and_true, true_and] at hcontra
  omega

/-- C5 (amended): a payload recorded for an expected channel is replaced
by each later event on the same channel; when the loop runs to the
deadline, the recorded payload for each channel is exactly that of the
last event received on that channel. -/
theorem c5_last_event_wins (polls : List (Option JVal)) (f0 m0 f m : Option JVal)
    (h : collectLoop polls f0 m0 = .ok (f, m, .deadline)) :
    f = lastChan "ipc-collect-fights" polls f0 ∧
      m = lastChan "ipc-collect-master-info" polls m0 :=
  collectLoop_deadline_lastChan polls f0 m0 f m h

/-- C5 witness: with two fights events and no master event the loop runs
to the deadline and the recorded fights payload is the second event's. -/
theorem c5_last_event_wins_witness :
    some (JVal.obj [("pull", .num 2)]) =
      lastChan "ipc-collect-fights"
        [some (fightsEvt (.obj [("pull", .num 1)])),
          some (fightsEvt (.obj [("pull", .num 2)]))] none ∧
    (none : Option JVal) =
      lastChan "ipc-collect-master-info"
        [some (fightsEvt (.obj [("pull", .num 1)])),
          some (fightsEvt (.obj [("pull", .num 2)]))] none :=
  c5_last_event_wins
    [some (fightsEvt (.obj [("pull", .num 1)])),
      some (fightsEvt (.obj [("pull", .num 2)]))]
    none none (some (.obj [("pull", .num 2)])) none rfl

/-- C2: when the deadline elapses with at least one mandatory channel's
payload still absent, `run_parser` returns (not raises) a failure
Outcome - a mapping with an error descriptor that also carries the
partial payloads recorded for each channel (each being the payload of an
event actually received on that channel, or null). -/
theorem c2_deadline_partial_failure (env : Env) (reportCode : String)
    (region : Int) (logLines : List String)
    (hd : env.downloadOk = true) (hs : env.scriptExists = true)
    (hr : env.readLog = .ok logLines) (hsp : env.spawnOk = .ok ())
    (hw : ∀ i, env.writeOk i = true)
    (f m : Option JVal)
    (hloop : collectLoop env.polls none none = .ok (f, m, .deadline))
    (habs : f = none ∨ m = none) :
    runParser env reportCode region =
      ⟨.ok (.obj [("error", .str "Parser did not return complete data"),
          ("fights", optJ f), ("master", optJ m)]), true, true,
        [setReportCodeCmd reportCode, parseLinesCmd logLines region,
          collectFightsCmd, collectMasterInfoCmd reportCode]⟩ ∧
    (f = none ∨ ∃ kvs, some (.obj kvs) ∈ env.polls ∧
      chanOf kvs = "ipc-collect-fights" ∧ f = some (dataOf kvs)) ∧
    (m = none ∨ ∃ kvs, some (.obj kvs) ∈ env.polls ∧
      chanOf kvs = "ipc-collect-master-info" ∧ m = some (dataOf kvs)) := by
  have hcond : (!truthyOpt f || !truthyOpt m) = true := by
    rcases habs with rfl | rfl
    · rw [truthyOpt_none]
      rfl
    · rw [truthyOpt_none]
      simp
  refine ⟨?_, ?_, ?_⟩
  · rw [runParser_after_spawn env reportCode region logLines hd hs hr hsp hw
      f m .deadline hloop]
    rw [if_pos hcond]
  · exact collectLoop_fights_provenance env.polls none none f m .deadline hloop
  · exact collectLoop_master_provenance env.polls none none f m .deadline hloop

/-- C2 witness: a run in which only a fights event arrives ends at the
deadline with the failure Outcome carrying the partial fights payload
and null for master. -/
theorem c2_deadline_partial_failure_witness :
    runParser (mkEnv [some (fightsEvt (.obj [("pull", .num 3)]))]) "R2W" 1 =
      ⟨.ok (.obj [("error", .str "Parser did not return complete data"),
          ("fights", .obj [("pull", .num 3)]), ("master", .null)]),
        true, true,
        [setReportCodeCmd "R2W",
          parseLinesCmd ["00|2024-01-01|log line\n"] 1,
          collectFightsCmd, collectMasterInfoCmd "R2W"]⟩ ∧
    (some (JVal.obj [("pull", .num 3)]) = none ∨
      ∃ kvs, some (JVal.obj kvs) ∈
          (mkEnv [some (fightsEvt (.obj [("pull", .num 3)]))]).polls ∧
        chanOf kvs = "ipc-collect-fights" ∧
        some (JVal.obj [("pull", .num 3)]) = some (dataOf kvs)) ∧
    ((none : Option JVal) = none ∨
      ∃ kvs, some (JVal.obj kvs) ∈
          (mkEnv [some (fightsEvt (.obj [("pull", .num 3)]))]).polls ∧
        chanOf kvs = "ipc-collect-master-info" ∧
        (none : Option JVal) = some (dataOf kvs)) :=
  c2_deadline_partial_failure _ "R2W" 1 ["00|2024-01-01|log line\n"]
    rfl rfl rfl rfl (fun _ => rfl)
    (some (.obj [("pull", .num 3)])) none rfl (Or.inr rfl)

/-- C1 counterexample: both mandatory channels' events are received
before the deadline, yet because the fights payload is the empty mapping
(Python-falsy) the loop never breaks early - it runs to the deadline and
the final Outcome is the failure mapping, not success. -/
theorem c1_counterexample :
    collectLoop [some (fightsEvt (.obj [])),
        some (masterEvt (.obj [("zone", .num 5)]))] none none =
      .ok (some (.obj []), some (.obj [("zone", .num 5)]), .deadline) ∧
    (runParser (mkEnv [some (fightsEvt (.obj [])),
        some (masterEvt (.obj [("zone", .num 5)]))]) "R1" 1).outcome =
      .ok (.obj [("error", .str "Parser did not return complete data"),
        ("fights", .obj []), ("master", .obj [("zone", .num 5)])]) :=
  ⟨rfl, rfl⟩

/-- C1 (amended): if events for both mandatory channels are received
before the deadline and every mandatory-channel event in the run carries
a Python-truthy payload (and every received event is a mapping), the
collection loop breaks before the deadline elapses and the final Outcome
is the success mapping holding both recorded payloads. -/
theorem c1_truthy_events_early_success (env : Env) (reportCode : String)
    (region : Int) (logLines : List String)
    (hd : env.downloadOk = true) (hs : env.scriptExists = true)
    (hr : env.readLog = .ok logLines) (hsp : env.spawnOk = .ok ())
    (hw : ∀ i, env.writeOk i = true)
    (hobj : ∀ p ∈ env.polls, isObjPoll p = true)
    (htr : ∀ p ∈ env.polls, mandTruthy p = true)
    (hf : ∃ p ∈ env.polls, isChanEvt "ipc-collect-fights" p = true)
    (hm : ∃ p ∈ env.polls, isChanEvt "ipc-collect-master-info" p = true) :
    ∃ fv mv,
      collectLoop env.polls none none = .ok (some fv, some mv, .satisfied) ∧
      truthy fv = true ∧ truthy mv = true ∧
      (∃ kvs, some (.obj kvs) ∈ env.polls ∧
        chanOf kvs = "ipc-collect-fights" ∧ fv = dataOf kvs) ∧
      (∃ kvs, some (.obj kvs) ∈ env.polls ∧
        chanOf kvs = "ipc-collect-master-info" ∧ mv = dataOf kvs) ∧
      runParser env reportCode region =
        ⟨.ok (.obj [("fights", fv), ("master", mv)]), true, true,
          [setReportCodeCmd reportCode, parseLinesCmd logLines region,
            collectFightsCmd, collectMasterInfoCmd reportCode]⟩ := by
  obtain ⟨fv, mv, hloop, hfv, hmv⟩ :=
    collectLoop_satisfied_of_events env.polls none none hobj htr
      (Or.inl hf) (Or.inl hm) (by rw [truthyOpt_none]; rfl)
  refine ⟨fv, mv, hloop, hfv, hmv, ?_, ?_, ?_⟩
  · rcases collectLoop_fights_provenance _ _ _ _ _ _ hloop with
      h | ⟨kvs, hmem, hc, hval⟩
    · exact absurd h (by simp)
    · injection hval with hval
      exact ⟨kvs, hmem, hc, hval⟩
  · rcases collectLoop_master_provenance _ _ _ _ _ _ hloop with
      h | ⟨kvs, hmem, hc, hval⟩
    · exact absurd h (by simp)
    · injection hval with hval
      exact ⟨kvs, hmem, hc, hval⟩
  · rw [runParser_after_spawn env reportCode region logLines hd hs hr hsp hw
      (some fv) (some mv) .satisfied hloop]
    rw [if_neg (by simp [truthyOpt_some, hfv, hmv])]
    rfl

/-- C1 witness: a run with one truthy fights event and one truthy master
event breaks early and yields the success Outcome. -/
theorem c1_truthy_events_early_success_witness :
    ∃ fv mv,
      collectLoop (mkEnv [some (fightsEvt (.obj [("pull", .num 1)])),
          some (masterEvt (.obj [("zone", .num 5)]))]).polls none none =
        .ok (some fv, some mv, .satisfied) ∧
      truthy fv = true ∧ truthy mv = true ∧
      (∃ kvs, some (.obj kvs) ∈ (mkEnv [some (fightsEvt (.obj [("pull", .num 1)])),
          some (masterEvt (.obj [("zone", .num 5)]))]).polls ∧
        chanOf kvs = "ipc-collect-fights" ∧ fv = dataOf kvs) ∧
      (∃ kvs, some (.obj kvs) ∈ (mkEnv [some (fightsEvt (.obj [("pull", .num 1)])),
          some (masterEvt (.obj [("zone", .num 5)]))]).polls ∧
        chanOf kvs = "ipc-collect-master-info" ∧ mv = dataOf kvs) ∧
      runParser (mkEnv [some (fightsEvt (.obj [("pull", .num 1)])),
          some (masterEvt (.obj [("zone", .num 5)]))]) "R1W" 1 =
        ⟨.ok (.obj [("fights", fv), ("master", mv)]), true, true,
          [setReportCodeCmd "R1W",
            parseLinesCmd ["00|2024-01-01|log line\n"] 1,
            collectFightsCmd, collectMasterInfoCmd "R1W"]⟩ :=
  c1_truthy_events_early_success _ "R1W" 1 ["00|2024-01-01|log line\n"]
    rfl rfl rfl rfl (fun _ => rfl) (by decide) (by decide)
    (by decide) (by decide)

/-- C9: `run_parser` returns a success Outcome (both payload keys, no
error descriptor) only when both collected payloads are Python-truthy;
a received event with an empty-mapping payload counts as if the channel
never reported, so such a run yields the failure Outcome even though
both channels emitted events before the deadline. -/
theorem c9_success_requires_truthy_payloads :
    (∀ (env : Env) (reportCode : String) (region : Int) (v : JVal),
      (runParser env reportCode region).outcome = .ok v →
      isSuccessOutcome v = true →
      ∃ fv mv, v = .obj [("fights", fv), ("master", mv)] ∧
        truthy fv = true ∧ truthy mv = true) ∧
    (runParser (mkEnv [some (fightsEvt (.obj [])),
        some (masterEvt (.obj [("zone", .num 3)]))]) "R9" 1).outcome =
      .ok (.obj [("error", .str "Parser did not return complete data"),
        ("fights", .obj []), ("master", .obj [("zone", .num 3)])]) := by
  refine ⟨?_, rfl⟩
  intro env reportCode region v hout hsucc
  obtain ⟨dOk, sEx, rLog, spOk, wOk, polls⟩ := env
  cases dOk with
  | false =>
    simp only [runParser, Bool.not_false, if_true, Except.ok.injEq] at hout
    subst hout
    simp [isSuccessOutcome, List.lookup] at hsucc
  | true =>
    cases sEx with
    | false =>
      simp only [runParser, Bool.not_true, Bool.not_false, Bool.false_eq_true,
        if_false, if_true] at hout
      simp only [Except.ok.injEq] at hout
      subst hout
      simp [isSuccessOutcome, List.lookup] at hsucc
    | true =>
      cases rLog with
      | error eL =>
        simp only [runParser, Bool.not_true, Bool.false_eq_true, if_false,
          Except.ok.injEq] at hout
        subst hout
        simp [isSuccessOutcome, List.lookup] at hsucc
      | ok logLines =>
        cases spOk with
        | error eS =>
          simp only [runParser, Bool.not_true, Bool.false_eq_true, if_false,
            Except.ok.injEq] at hout
          subst hout
          simp [isSuccessOutcome, List.lookup] at hsucc
        | ok u =>
          cases u
          cases hw0 : wOk 0 with
          | false =>
            simp only [runParser, Bool.not_true, Bool.false_eq_true, if_false,
              hw0, Bool.not_false, if_true] at hout
            exact Except.noConfusion hout
          | true =>
            cases hw1 : wOk 1 with
            | false =>
              simp only [runParser, Bool.not_true, Bool.false_eq_true,
                if_false, hw0, hw1, Bool.not_false, if_true] at hout
              exact Except.noConfusion hout
            | true =>
              cases hw2 : wOk 2 with
              | false =>
                simp only [runParser, Bool.not_true, Bool.false_eq_true,
                  if_false, hw0, hw1, hw2, Bool.not_false, if_true] at hout
                exact Except.noConfusion hout
              | true =>
                cases hw3 : wOk 3 with
                | false =>
                  simp only [runParser, Bool.not_true, Bool.false_eq_true,
                    if_false, hw0, hw1, hw2, hw3, Bool.not_false,
                    if_true] at hout
                  exact Except.noConfusion hout
                | true =>
                  cases hloop : collectLoop polls none none with
                  | error eA =>
                    simp only [runParser, Bool.not_true, Bool.false_eq_true,
                      if_false, hw0, hw1, hw2, hw3, hloop] at hout
                    exact Except.noConfusion hout
                  | ok r =>
                    obtain ⟨f, m, ex⟩ := r
                    simp only [runParser, Bool.not_true, Bool.false_eq_true,
                      if_false, hw0, hw1, hw2, hw3, hloop,
                      Except.ok.injEq] at hout
                    by_cases hcond : (!truthyOpt f || !truthyOpt m) = true
                    · rw [if_pos hcond] at hout
                      subst hout
                      simp [isSuccessOutcome, List.lookup] at hsucc
                    · rw [if_neg hcond] at hout
                      subst hout
                      have hcond2 : (!truthyOpt f || !truthyOpt m) = false := by
                        cases hx : (!truthyOpt f || !truthyOpt m) with
                        | false => rfl
                        | true => exact absurd hx hcond
                      have hboth : truthyOpt f = true ∧ truthyOpt m = true := by
                        simpa using hcond2
                      obtain ⟨fv, rfl, hfv⟩ := truthyOpt_eq_true hboth.1
                      obtain ⟨mv, rfl, hmv⟩ := truthyOpt_eq_true hboth.2
                      exact ⟨fv, mv, rfl, hfv, hmv⟩

/-- C9 witness: a run whose two events carry truthy payloads produces a
success Outcome, and that Outcome indeed holds two truthy payloads. -/
theorem c9_success_requires_truthy_payloads_witness :
    ∃ fv mv,
      JVal.obj [("fights", .obj [("pull", .num 1)]),
        ("master", .obj [("zone", .num 5)])] =
        .obj [("fights", fv), ("master", mv)] ∧
      truthy fv = true ∧ truthy mv = true :=
  c9_success_requires_truthy_payloads.1
    (mkEnv [some (fightsEvt (.obj [("pull", .num 1)])),
      some (masterEvt (.obj [("zone", .num 5)]))]) "R9W" 1
    (.obj [("fights", .obj [("pull", .num 1)]),
      ("master", .obj [("zone", .num 5)])]) rfl rfl

theorem charOfNat_toNat (n : Nat) (h : n.isValidChar) :
    (Char.ofNat n).toNat = n := by
  simp [Char.ofNat, h, Char.ofNatAux, Char.toNat, UInt32.toNat,
    BitVec.toNat_ofNatLt]

theorem char_valid_nat (c : Char) :
    c.toNat < 55296 ∨ (57343 < c.toNat ∧ c.toNat < 1114112) := by
  have hv := c.valid
  unfold UInt32.isValidChar Nat.isValidChar at hv
  rcases hv with h | ⟨h1, h2⟩
  · exact Or.inl h
  · exact Or.inr ⟨h1, h2⟩

theorem hexVal_hexDigit (d : Nat) (h : d < 16) :
    hexVal (hexDigit d) = some d := by
  interval_cases d <;> decide

set_option maxRecDepth 4096 in
theorem parseU_hex (n : Nat) (fuel : Nat) (hlt : n < 65536)
    (hlo : n < 55296 ∨ 57343 < n) (tail : List Char) :
    parseU (fuel + 1) (hex4 n ++ tail) =
      consFst (Char.ofNat n) (parseStringBody fuel tail) := by
  have e1 : hexVal (hexDigit (n / 4096 % 16)) = some (n / 4096 % 16) :=
    hexVal_hexDigit _ (by omega)
  have e2 : hexVal (hexDigit (n / 256 % 16)) = some (n / 256 % 16) :=
    hexVal_hexDigit _ (by omega)
  have e3 : hexVal (hexDigit (n / 16 % 16)) = some (n / 16 % 16) :=
    hexVal_hexDigit _ (by omega)
  have e4 : hexVal (hexDigit (n % 16)) = some (n % 16) :=
    hexVal_hexDigit _ (by omega)
  have hrec : n / 4096 % 16 * 4096 + n / 256 % 16 * 256 +
      n / 16 % 16 * 16 + n % 16 = n := by omega
  simp only [hex4, List.cons_append, List.nil_append]
  rw [parseU.eq_2]
  rw [e1, e2, e3, e4]
  simp only [hrec]
  rw [if_neg (by omega : ¬(55296 ≤ n ∧ n ≤ 56319))]
  rw [if_neg (by omega : ¬(56320 ≤ n ∧ n ≤ 57343))]

set_option maxRecDepth 4096 in
theorem parseLowSurr_hex (n : Nat) (fuel : Nat) (h1 : 65536 ≤ n)
    (h2 : n < 1114112) (tail : List Char) :
    parseLowSurr (55296 + (n - 65536) / 1024) (fuel + 1)
        ('\\' :: 'u' :: (hex4 (56320 + (n - 65536) % 1024) ++ tail)) =
      consFst (Char.ofNat n) (parseStringBody fuel tail) := by
  set lo := 56320 + (n - 65536) % 1024 with hlodef
  have hm : (n - 65536) % 1024 ≤ 1023 := by omega
  have f1 : hexVal (hexDigit (lo / 4096 % 16)) = some (lo / 4096 % 16) :=
    hexVal_hexDigit _ (by omega)
  have f2 : hexVal (hexDigit (lo / 256 % 16)) = some (lo / 256 % 16) :=
    hexVal_hexDigit _ (by omega)
  have f3 : hexVal (hexDigit (lo / 16 % 16)) = some (lo / 16 % 16) :=
    hexVal_hexDigit _ (by omega)
  have f4 : hexVal (hexDigit (lo % 16)) = some (lo % 16) :=
    hexVal_hexDigit _ (by omega)
  have hrecLo : lo / 4096 % 16 * 4096 + lo / 256 % 16 * 256 +
      lo / 16 % 16 * 16 + lo % 16 = lo := by omega
  have hcomb : 65536 + (55296 + (n - 65536) / 1024 - 55296) * 1024 +
      (lo - 56320) = n := by omega
  simp only [hex4, List.cons_append, List.nil_append]
  rw [parseLowSurr.eq_2]
  rw [if_pos (show ('\\' : Char) = '\\' ∧ ('u' : Char) = 'u' from ⟨rfl, rfl⟩)]
  rw [f1, f2, f3, f4]
  simp only [hrecLo]
  rw [if_pos (by omega : 56320 ≤ lo ∧ lo ≤ 57343), hcomb]

set_option maxRecDepth 4096 in
theorem parseU_pair (n : Nat) (fuel : Nat) (h1 : 65536 ≤ n)
    (h2 : n < 1114112) (tail : List Char) :
    parseU (fuel + 2) (hex4 (55296 + (n - 65536) / 1024) ++
        ('\\' :: 'u' :: (hex4 (56320 + (n - 65536) % 1024) ++ tail))) =
      consFst (Char.ofNat n) (parseStringBody fuel tail) := by
  set hi := 55296 + (n - 65536) / 1024 with hhidef
  have hq : (n - 65536) / 1024 ≤ 1023 := by omega
  have e1 : hexVal (hexDigit (hi / 4096 % 16)) = some (hi / 4096 % 16) :=
    hexVal_hexDigit _ (by omega)
  have e2 : hexVal (hexDigit (hi / 256 % 16)) = some (hi / 256 % 16) :=
    hexVal_hexDigit _ (by omega)
  have e3 : hexVal (hexDigit (hi / 16 % 16)) = some (hi / 16 % 16) :=
    hexVal_hexDigit _ (by omega)
  have e4 : hexVal (hexDigit (hi % 16)) = some (hi % 16) :=
    hexVal_hexDigit _ (by omega)
  have hrecHi : hi / 4096 % 16 * 4096 + hi / 256 % 16 * 256 +
      hi / 16 % 16 * 16 + hi % 16 = hi := by omega
  have hstep : parseU (fuel + 1 + 1) (hex4 hi ++
      ('\\' :: 'u' :: (hex4 (56320 + (n - 65536) % 1024) ++ tail))) =
      parseLowSurr hi (fuel + 1)
        ('\\' :: 'u' :: (hex4 (56320 + (n - 65536) % 1024) ++ tail)) := by
    simp only [hex4, List.cons_append, List.nil_append]
    rw [parseU.eq_2]
    rw [e1, e2, e3, e4]
    simp only [hrecHi]
    rw [if_pos (by omega : 55296 ≤ hi ∧ hi ≤ 56319)]
  rw [show fuel + 2 = fuel + 1 + 1 from rfl, hstep, hhidef]
  exact parseLowSurr_hex n fuel h1 h2 tail

theorem psb_succ (fuel : Nat) (c : Char) (rest : List Char) :
    parseStringBody (fuel + 1) (c :: rest) =
      if c = '"' then some ([], rest)
      else if c = '\\' then parseEsc fuel rest
      else if c.toNat < 32 then none
      else consFst c (parseStringBody fuel rest) := by
  rw [parseStringBody.eq_3]

theorem pe_succ (fuel : Nat) (e : Char) (rest : List Char) :
    parseEsc (fuel + 1) (e :: rest) =
      if e = '"' then consFst '"' (parseStringBody fuel rest)
      else if e = '\\' then consFst '\\' (parseStringBody fuel rest)
      else if e = '/' then consFst '/' (parseStringBody fuel rest)
      else if e = 'b' then consFst (Char.ofNat 8) (parseStringBody fuel rest)
      else if e = 'f' then consFst (Char.ofNat 12) (parseStringBody fuel rest)
      else if e = 'n' then consFst '\n' (parseStringBody fuel rest)
      else if e = 'r' then consFst '\r' (parseStringBody fuel rest)
      else if e = 't' then consFst '\t' (parseStringBody fuel rest)
      else if e = 'u' then parseU fuel rest
      else none := by
  rw [parseEsc.eq_3]

theorem consFst_some (c : Char) (s : List Char) (r : List Char) :
    consFst c (some (s, r)) = some (c :: s, r) := rfl

set_option maxRecDepth 4096 in
theorem parseStringBody_flat :
    ∀ (s : List Char) (fuel : Nat) (tail : List Char),
    ((s.map escChar).flatten).length < fuel →
    parseStringBody fuel ((s.map escChar).flatten ++ '"' :: tail) =
      some (s, tail) := by
  intro s
  induction s with
  | nil =>
    intro fuel tail hfuel
    obtain ⟨f, rfl⟩ : ∃ f, fuel = f + 1 := ⟨fuel - 1, by omega⟩
    simp only [List.map_nil, List.flatten_nil, List.nil_append]
    rw [psb_succ, if_pos rfl]
  | cons c s' ih =>
    intro fuel tail hfuel
    simp only [List.map_cons, List.flatten_cons, List.append_assoc] at hfuel ⊢
    rw [List.length_append] at hfuel
    by_cases h1 : c = '"'
    · subst h1
      have he : escChar '"' = ['\\', '"'] := rfl
      rw [he] at hfuel ⊢
      obtain ⟨f, rfl⟩ : ∃ f, fuel = f + 2 := ⟨fuel - 2, by simp at hfuel; omega⟩
      simp only [List.cons_append, List.nil_append]
      rw [show f + 2 = f + 1 + 1 from rfl, psb_succ,
        if_neg (by decide : ¬('\\' : Char) = '"'), if_pos rfl, pe_succ,
        if_pos rfl, ih f tail (by simp at hfuel ⊢; omega), consFst_some]
    · by_cases h2 : c = '\\'
      · subst h2
        have he : escChar '\\' = ['\\', '\\'] := rfl
        rw [he] at hfuel ⊢
        obtain ⟨f, rfl⟩ : ∃ f, fuel = f + 2 := ⟨fuel - 2, by simp at hfuel; omega⟩
        simp only [List.cons_append, List.nil_append]
        rw [show f + 2 = f + 1 + 1 from rfl, psb_succ,
          if_neg (by decide : ¬('\\' : Char) = '"'), if_pos rfl, pe_succ,
          if_neg (by decide : ¬('\\' : Char) = '"'), if_pos rfl,
          ih f tail (by simp at hfuel ⊢; omega), consFst_some]
      · by_cases h3 : c = '\n'
        · subst h3
          have he : escChar '\n' = ['\\', 'n'] := rfl
          rw [he] at hfuel ⊢
          obtain ⟨f, rfl⟩ : ∃ f, fuel = f + 2 := ⟨fuel - 2, by simp at hfuel; omega⟩
          simp only [List.cons_append, List.nil_append]
          rw [show f + 2 = f + 1 + 1 from rfl, psb_succ,
            if_neg (by decide : ¬('\\' : Char) = '"'), if_pos rfl, pe_succ,
            if_neg (by decide : ¬('n' : Char) = '"'),
            if_neg (by decide : ¬('n' : Char) = '\\'),
            if_neg (by decide : ¬('n' : Char) = '/'),
            if_neg (by decide : ¬('n' : Char) = 'b'),
            if_neg (by decide : ¬('n' : Char) = 'f'), if_pos rfl,
            ih f tail (by simp at hfuel ⊢; omega), consFst_some]
        · by_cases h4 : c = '\r'
          · subst h4
            have he : escChar '\r' = ['\\', 'r'] := rfl
            rw [he] at hfuel ⊢
            obtain ⟨f, rfl⟩ : ∃ f, fuel = f + 2 :=
              ⟨fuel - 2, by simp at hfuel; omega⟩
            simp only [List.cons_append, List.nil_append]
            rw [show f + 2 = f + 1 + 1 from rfl, psb_succ,
              if_neg (by decide : ¬('\\' : Char) = '"'), if_pos rfl, pe_succ,
              if_neg (by decide : ¬('r' : Char) = '"'),
              if_neg (by decide : ¬('r' : Char) = '\\'),
              if_neg (by decide : ¬('r' : Char) = '/'),
              if_neg (by decide : ¬('r' : Char) = 'b'),
              if_neg (by decide : ¬('r' : Char) = 'f'),
              if_neg (by decide : ¬('r' : Char) = 'n'), if_pos rfl,
              ih f tail (by simp at hfuel ⊢; omega), consFst_some]
          · by_cases h5 : c = '\t'
            · subst h5
              have he : escChar '\t' = ['\\', 't'] := rfl
              rw [he] at hfuel ⊢
              obtain ⟨f, rfl⟩ : ∃ f, fuel = f + 2 :=
                ⟨fuel - 2, by simp at hfuel; omega⟩
              simp only [List.cons_append, List.nil_append]
              rw [show f + 2 = f + 1 + 1 from rfl, psb_succ,
                if_neg (by decide : ¬('\\' : Char) = '"'), if_pos rfl, pe_succ,
                if_neg (by decide : ¬('t' : Char) = '"'),
                if_neg (by decide : ¬('t' : Char) = '\\'),
                if_neg (by decide : ¬('t' : Char) = '/'),
                if_neg (by decide : ¬('t' : Char) = 'b'),
                if_neg (by decide : ¬('t' : Char) = 'f'),
                if_neg (by decide : ¬('t' : Char) = 'n'),
                if_neg (by decide : ¬('t' : Char) = 'r'), if_pos rfl,
                ih f tail (by simp at hfuel ⊢; omega), consFst_some]
            · by_cases h6 : c = Char.ofNat 8
              · subst h6
                have he : escChar (Char.ofNat 8) = ['\\', 'b'] := rfl
                rw [he] at hfuel ⊢
                obtain ⟨f, rfl⟩ : ∃ f, fuel = f + 2 :=
                  ⟨fuel - 2, by simp at hfuel; omega⟩
                simp only [List.cons_append, List.nil_append]
                rw [show f + 2 = f + 1 + 1 from rfl, psb_succ,
                  if_neg (by decide : ¬('\\' : Char) = '"'), if_pos rfl,
                  pe_succ,
                  if_neg (by decide : ¬('b' : Char) = '"'),
                  if_neg (by decide : ¬('b' : Char) = '\\'),
                  if_neg (by decide : ¬('b' : Char) = '/'), if_pos rfl,
                  ih f tail (by simp at hfuel ⊢; omega), consFst_some]
              · by_cases h7 : c = Char.ofNat 12
                · subst h7
                  have he : escChar (Char.ofNat 12) = ['\\', 'f'] := rfl
                  rw [he] at hfuel ⊢
                  obtain ⟨f, rfl⟩ : ∃ f, fuel = f + 2 :=
                    ⟨fuel - 2, by simp at hfuel; omega⟩
                  simp only [List.cons_append, List.nil_append]
                  rw [show f + 2 = f + 1 + 1 from rfl, psb_succ,
                    if_neg (by decide : ¬('\\' : Char) = '"'), if_pos rfl,
                    pe_succ,
                    if_neg (by decide : ¬('f' : Char) = '"'),
                    if_neg (by decide : ¬('f' : Char) = '\\'),
                    if_neg (by decide : ¬('f' : Char) = '/'),
                    if_neg (by decide : ¬('f' : Char) = 'b'), if_pos rfl,
                    ih f tail (by simp at hfuel ⊢; omega), consFst_some]
                · by_cases hr : (c.toNat < 32 || 127 ≤ c.toNat) = true
                  · have he : escChar c =
                        (if c.toNat < 65536 then uEsc c.toNat
                        else uEsc (55296 + (c.toNat - 65536) / 1024) ++
                          uEsc (56320 + (c.toNat - 65536) % 1024)) := by
                      rw [escChar, if_neg h1, if_neg h2, if_neg h3, if_neg h4,
                        if_neg h5, if_neg h6, if_neg h7, if_pos hr]
                    by_cases hbmp : c.toNat < 65536
                    · rw [if_pos hbmp] at he
                      rw [he] at hfuel ⊢
                      have hlen : (uEsc c.toNat).length = 6 := rfl
                      obtain ⟨f, rfl⟩ : ∃ f, fuel = f + 3 :=
                        ⟨fuel - 3, by rw [hlen] at hfuel; omega⟩
                      simp only [uEsc, List.cons_append, List.nil_append]
                      rw [show f + 3 = f + 2 + 1 from rfl, psb_succ,
                        if_neg (by decide : ¬('\\' : Char) = '"'), if_pos rfl,
                        show f + 2 = f + 1 + 1 from rfl, pe_succ,
                        if_neg (by decide : ¬('u' : Char) = '"'),
                        if_neg (by decide : ¬('u' : Char) = '\\'),
                        if_neg (by decide : ¬('u' : Char) = '/'),
                        if_neg (by decide : ¬('u' : Char) = 'b'),
                        if_neg (by decide : ¬('u' : Char) = 'f'),
                        if_neg (by decide : ¬('u' : Char) = 'n'),
                        if_neg (by decide : ¬('u' : Char) = 'r'),
                        if_neg (by decide : ¬('u' : Char) = 't'), if_pos rfl]
                      have hvalid := char_valid_nat c
                      rw [parseU_hex c.toNat f hbmp (by omega)]
                      rw [ih f tail (by rw [hlen] at hfuel; omega)]
                      rw [Char.ofNat_toNat, consFst_some]
                    · rw [if_neg hbmp] at he
                      rw [he] at hfuel ⊢
                      have hlen : (uEsc (55296 + (c.toNat - 65536) / 1024) ++
                          uEsc (56320 + (c.toNat - 65536) % 1024)).length = 12 := by
                        simp [uEsc, hex4]
                      obtain ⟨f, rfl⟩ : ∃ f, fuel = f + 4 :=
                        ⟨fuel - 4, by rw [hlen] at hfuel; omega⟩
                      simp only [uEsc, List.cons_append, List.nil_append,
                        List.append_assoc]
                      rw [show f + 4 = f + 3 + 1 from rfl, psb_succ,
                        if_neg (by decide : ¬('\\' : Char) = '"'), if_pos rfl,
                        show f + 3 = f + 2 + 1 from rfl, pe_succ,
                        if_neg (by decide : ¬('u' : Char) = '"'),
                        if_neg (by decide : ¬('u' : Char) = '\\'),
                        if_neg (by decide : ¬('u' : Char) = '/'),
                        if_neg (by decide : ¬('u' : Char) = 'b'),
                        if_neg (by decide : ¬('u' : Char) = 'f'),
                        if_neg (by decide : ¬('u' : Char) = 'n'),
                        if_neg (by decide : ¬('u' : Char) = 'r'),
                        if_neg (by decide : ¬('u' : Char) = 't'), if_pos rfl]
                      have hvalid := char_valid_nat c
                      rw [parseU_pair c.toNat f (by omega) (by omega)]
                      rw [ih f tail (by rw [hlen] at hfuel; omega)]
                      rw [Char.ofNat_toNat, consFst_some]
                  · have he : escChar c = [c] := by
                      rw [escChar, if_neg h1, if_neg h2, if_neg h3, if_neg h4,
                        if_neg h5, if_neg h6, if_neg h7, if_neg (by simp [hr])]
                    rw [he] at hfuel ⊢
                    obtain ⟨f, rfl⟩ : ∃ f, fuel = f + 1 :=
                      ⟨fuel - 1, by simp at hfuel; omega⟩
                    simp only [List.cons_append, List.nil_append]
                    have h32 : ¬c.toNat < 32 := by
                      simp only [Bool.or_eq_true, decide_eq_true_eq] at hr
                      push_neg at hr
                      omega
                    rw [psb_succ, if_neg h1, if_neg h2, if_neg h32,
                      ih f tail (by simp at hfuel ⊢; omega), consFst_some]

theorem hexDigit_toNat (d : Nat) (h : d < 16) :
    (hexDigit d).toNat = if d < 10 then 48 + d else 87 + d := by
  unfold hexDigit
  by_cases h10 : d < 10
  · rw [if_pos h10, if_pos h10]
    exact charOfNat_toNat _ (Or.inl (by omega))
  · rw [if_neg h10, if_neg h10]
    exact charOfNat_toNat _ (Or.inl (by omega))

theorem hexDigit_isDigit (d : Nat) (h : d < 10) :
    (hexDigit d).isDigit = true := by
  interval_cases d <;> decide

theorem hexDigit_ne_zero (d : Nat) (h1 : 1 ≤ d) (h2 : d < 10) :
    hexDigit d ≠ '0' := by
  interval_cases d <;> decide

theorem hexDigit_ne_minus (d : Nat) (h : d < 10) : hexDigit d ≠ '-' := by
  interval_cases d <;> decide

theorem natChars_digits : ∀ n : Nat, ∀ c ∈ natChars n, c.isDigit = true := by
  intro n
  induction n using Nat.strong_induction_on with
  | _ n ih =>
    intro c hc
    rw [natChars] at hc
    by_cases h10 : n < 10
    · rw [dif_pos h10] at hc
      rcases List.mem_singleton.mp hc with rfl
      exact hexDigit_isDigit n h10
    · rw [dif_neg h10] at hc
      rcases List.mem_append.mp hc with hmem | hmem
      · exact ih (n / 10) (Nat.div_lt_self (by omega) (by omega)) c hmem
      · rcases List.mem_singleton.mp hmem with rfl
        exact hexDigit_isDigit _ (by omega)

theorem digitsVal_natChars : ∀ n : Nat, digitsVal (natChars n) = n := by
  intro n
  induction n using Nat.strong_induction_on with
  | _ n ih =>
    rw [natChars]
    by_cases h10 : n < 10
    · rw [dif_pos h10]
      have ht : (hexDigit n).toNat = 48 + n := by
        rw [hexDigit_toNat n (by omega), if_pos h10]
      simp [digitsVal, ht]
    · rw [dif_neg h10]
      have ht : (hexDigit (n % 10)).toNat = 48 + n % 10 := by
        rw [hexDigit_toNat _ (by omega), if_pos (by omega)]
      unfold digitsVal at ih ⊢
      rw [List.foldl_append]
      rw [ih (n / 10) (Nat.div_lt_self (by omega) (by omega))]
      simp [ht]
      omega

theorem natChars_head_pos : ∀ n : Nat, 1 ≤ n →
    ∃ c rest, natChars n = c :: rest ∧ c.isDigit = true ∧ c ≠ '0' ∧
      c ≠ '-' := by
  intro n
  induction n using Nat.strong_induction_on with
  | _ n ih =>
    intro hpos
    rw [natChars]
    by_cases h10 : n < 10
    · rw [dif_pos h10]
      exact ⟨hexDigit n, [], rfl, hexDigit_isDigit n h10,
        hexDigit_ne_zero n hpos h10, hexDigit_ne_minus n h10⟩
    · rw [dif_neg h10]
      obtain ⟨c, rest, heq, hdig, hz, hm⟩ :=
        ih (n / 10) (Nat.div_lt_self (by omega) (by omega)) (by omega)
      exact ⟨c, rest ++ [hexDigit (n % 10)], by rw [heq]; rfl, hdig, hz, hm⟩

theorem takeWhile_app_all {α : Type} (p : α → Bool) (l1 l2 : List α)
    (h1 : ∀ a ∈ l1, p a = true) :
    (l1 ++ l2).takeWhile p = l1 ++ l2.takeWhile p ∧
      (l1 ++ l2).dropWhile p = l2.dropWhile p := by
  induction l1 with
  | nil => simp
  | cons a l1 ih =>
    have hpa := h1 a (List.mem_cons_self _ _)
    have hrest := ih (fun b hb => h1 b (List.mem_cons_of_mem _ hb))
    simp only [List.cons_append, List.takeWhile_cons, List.dropWhile_cons,
      hpa, if_true]
    exact ⟨by rw [hrest.1], by rw [hrest.2]⟩

theorem isFloatCont_of_numStop (tail : List Char) (h : numStop tail = true) :
    isFloatCont tail = false := by
  cases tail with
  | nil => rfl
  | cons c rest =>
    simp only [numStop, Bool.not_eq_true', Bool.or_eq_false_iff,
      decide_eq_false_iff_not] at h
    rw [isFloatCont.eq_2]
    rw [if_neg h.1.1.2, if_neg (by simp [h.1.2, h.2])]

theorem takeWhile_stop (tail : List Char) (h : numStop tail = true) :
    tail.takeWhile Char.isDigit = [] ∧ tail.dropWhile Char.isDigit = tail := by
  cases tail with
  | nil => simp
  | cons c rest =>
    simp only [numStop, Bool.not_eq_true', Bool.or_eq_false_iff,
      decide_eq_false_iff_not] at h
    simp [List.takeWhile_cons, List.dropWhile_cons, h.1.1.1]

theorem parseNum_intChars (i : Int) (tail : List Char)
    (hstop : numStop tail = true) :
    parseNum (intChars i ++ tail) = some (.num i, tail) := by
  have hfc := isFloatCont_of_numStop tail hstop
  have hts := takeWhile_stop tail hstop
  by_cases hneg : i < 0
  · have hm : 1 ≤ (-i).toNat := by omega
    obtain ⟨c, rest, heq, hdig, hz, hmc⟩ := natChars_head_pos (-i).toNat hm
    have hall : ∀ a ∈ rest, a.isDigit = true := by
      intro a ha
      exact natChars_digits (-i).toNat a (by rw [heq]; right; exact ha)
    have hsplit := takeWhile_app_all Char.isDigit rest tail hall
    rw [intChars, if_pos hneg, heq]
    simp only [List.cons_append]
    rw [parseNum]
    rw [if_pos rfl]
    rw [parseUNum]
    rw [if_neg hz, if_pos hdig]
    rw [hsplit.1, hsplit.2, hts.1, hts.2, List.append_nil]
    have hdv : digitsVal (c :: rest) = ((-i).toNat : Int) := by
      rw [← heq]
      exact digitsVal_natChars _
    rw [hdv, finishNum, if_neg (by rw [hfc]; simp)]
    have : -(((-i).toNat : Nat) : Int) = i := by omega
    rw [if_pos rfl, this]
  · rw [intChars, if_neg hneg]
    by_cases h0 : i.toNat = 0
    · have hi0 : i = 0 := by omega
      subst hi0
      have : natChars (Int.toNat 0) = ['0'] := by
        rw [natChars]
        rfl
      rw [this]
      simp only [List.cons_append, List.nil_append]
      rw [parseNum]
      rw [if_neg (by decide : ¬('0' : Char) = '-'), parseUNum, if_pos rfl,
        finishNum, if_neg (by rw [hfc]; simp)]
      rfl
    · obtain ⟨c, rest, heq, hdig, hz, hmc⟩ := natChars_head_pos i.toNat
        (by omega)
      have hall : ∀ a ∈ rest, a.isDigit = true := by
        intro a ha
        exact natChars_digits i.toNat a (by rw [heq]; right; exact ha)
      have hsplit := takeWhile_app_all Char.isDigit rest tail hall
      rw [heq]
      simp only [List.cons_append]
      rw [parseNum]
      rw [if_neg hmc, parseUNum, if_neg hz, if_pos hdig]
      rw [hsplit.1, hsplit.2, hts.1, hts.2, List.append_nil]
      have hdv : digitsVal (c :: rest) = (i.toNat : Int) := by
        rw [← heq]
        exact digitsVal_natChars _
      rw [hdv, finishNum, if_neg (by rw [hfc]; simp)]
      have : ((i.toNat : Nat) : Int) = i := by omega
      rw [if_neg (by simp), this]

theorem digit_head_ok (c : Char) (h : c.isDigit = true) :
    isJsonWs c = false ∧ c ≠ ']' ∧ c ≠ ',' ∧ c ≠ Char.ofNat 125 := by
  have hsp : ¬c = ' ' := fun hc => absurd h (by rw [hc]; decide)
  have hta : ¬c = '\t' := fun hc => absurd h (by rw [hc]; decide)
  have hnl : ¬c = '\n' := fun hc => absurd h (by rw [hc]; decide)
  have hcr : ¬c = '\r' := fun hc => absurd h (by rw [hc]; decide)
  have hrb : ¬c = ']' := fun hc => absurd h (by rw [hc]; decide)
  have hcm : ¬c = ',' := fun hc => absurd h (by rw [hc]; decide)
  have hbr : ¬c = Char.ofNat 125 := fun hc => absurd h (by rw [hc]; decide)
  exact ⟨by simp [isJsonWs, hsp, hta, hnl, hcr], hrb, hcm, hbr⟩

theorem jsonEncode_head (v : JVal) : ∃ c cs, jsonEncode v = c :: cs ∧
    isJsonWs c = false ∧ c ≠ ']' ∧ c ≠ ',' ∧ c ≠ Char.ofNat 125 := by
  cases v with
  | null => exact ⟨'n', _, rfl, by decide, by decide, by decide, by decide⟩
  | bool b =>
    cases b with
    | true => exact ⟨'t', _, rfl, by decide, by decide, by decide, by decide⟩
    | false => exact ⟨'f', _, rfl, by decide, by decide, by decide, by decide⟩
  | num i =>
    rw [show jsonEncode (.num i) = intChars i from rfl, intChars]
    by_cases hneg : i < 0
    · rw [if_pos hneg]
      exact ⟨'-', _, rfl, by decide, by decide, by decide, by decide⟩
    · rw [if_neg hneg]
      by_cases h0 : i.toNat = 0
      · have hn0 : natChars 0 = ['0'] := by
          rw [natChars]
          rfl
        rw [h0, hn0]
        exact ⟨'0', [], rfl, by decide, by decide, by decide, by decide⟩
      · obtain ⟨c, rest, heq, hdig, _, _⟩ := natChars_head_pos i.toNat (by omega)
        obtain ⟨hws, hrb, hcm, hbr⟩ := digit_head_ok c hdig
        exact ⟨c, rest, heq, hws, hrb, hcm, hbr⟩
  | str s =>
    exact ⟨'"', _, rfl, by decide, by decide, by decide, by decide⟩
  | arr xs =>
    exact ⟨'[', _, rfl, by decide, by decide, by decide, by decide⟩
  | obj kvs =>
    exact ⟨Char.ofNat 123, _, rfl, by decide, by decide, by decide, by decide⟩

theorem skipWs_enc (v : JVal) (l : List Char) :
    skipWs (jsonEncode v ++ l) = jsonEncode v ++ l := by
  obtain ⟨c, cs, heq, hws, _, _, _⟩ := jsonEncode_head v
  rw [heq]
  simp [skipWs, List.dropWhile_cons, hws]

theorem pyDict_go : ∀ (pairs acc : List (String × JVal)),
    keysNodup pairs = true →
    (∀ kv ∈ pairs, acc.any (fun x => x.1 == kv.1) = false) →
    pairs.foldl (fun a kv => pyDictInsert a kv.1 kv.2) acc = acc ++ pairs := by
  intro pairs
  induction pairs with
  | nil =>
    intro acc _ _
    simp
  | cons kv rest ih =>
    intro acc hnd hfree
    obtain ⟨k, v⟩ := kv
    have hstep : pyDictInsert acc k v = acc ++ [(k, v)] := by
      rw [pyDictInsert, if_neg]
      rw [hfree (k, v) (List.mem_cons_self _ _)]
      simp
    rw [keysNodup] at hnd
    simp only [Bool.and_eq_true, Bool.not_eq_true'] at hnd
    have hnd' : keysNodup rest = true := hnd.2
    have hknotin : rest.any (fun kv2 => kv2.1 == k) = false := hnd.1
    have hfree' : ∀ kv2 ∈ rest,
        (acc ++ [(k, v)]).any (fun x => x.1 == kv2.1) = false := by
      intro kv2 hkv2
      rw [List.any_append]
      rw [hfree kv2 (List.mem_cons_of_mem _ hkv2)]
      simp only [Bool.false_or, List.any_cons, List.any_nil, Bool.or_false]
      have : (kv2.1 == k) = false := by
        rcases hany : rest.any (fun kv3 => kv3.1 == k) with _ | _
        · have := List.any_eq_false.mp hany kv2 hkv2
          simpa using this
        · rw [hany] at hknotin
          exact absurd hknotin (by simp)
      rcases heq : (k == kv2.1) with _ | _
      · rfl
      · rw [beq_iff_eq] at heq
        rw [heq] at this
        simp at this
    rw [List.foldl_cons, hstep, ih (acc ++ [(k, v)]) hnd' hfree']
    simp

theorem pyDict_eq_self (pairs : List (String × JVal))
    (h : keysNodup pairs = true) : pyDict pairs = pairs := by
  have := pyDict_go pairs [] h (by intro kv _; simp)
  simpa [pyDict] using this

theorem pv_succ (fuel : Nat) (c : Char) (rest : List Char) :
    parseVal (fuel + 1) (c :: rest) =
      (if c = Char.ofNat 123 then
        match skipWs rest with
        | d :: rest2 =>
          if d = Char.ofNat 125 then some (.obj [], rest2)
          else
            match objLoop fuel (d :: rest2) with
            | some (kvs, r) => some (.obj (pyDict kvs), r)
            | none => none
        | [] => none
      else if c = '[' then
        match skipWs rest with
        | d :: rest2 =>
          if d = ']' then some (.arr [], rest2)
          else
            match arrLoop fuel (d :: rest2) with
            | some (vs, r) => some (.arr vs, r)
            | none => none
        | [] => none
      else if c = '"' then
        match parseStringBody (rest.length + 1) rest with
        | some (scs, rest2) => some (.str ⟨scs⟩, rest2)
        | none => none
      else if c = 't' then parseTrue rest
      else if c = 'f' then parseFalse rest
      else if c = 'n' then parseNull rest
      else parseNum (c :: rest)) := by
  rw [parseVal.eq_3]

theorem al_succ (fuel : Nat) (cs : List Char) :
    arrLoop (fuel + 1) cs =
      (match parseVal fuel cs with
      | some (v, rest) =>
        match skipWs rest with
        | d :: rest2 =>
          if d = ',' then
            match arrLoop fuel (skipWs rest2) with
            | some (vs, r) => some (v :: vs, r)
            | none => none
          else if d = ']' then some ([v], rest2)
          else none
        | [] => none
      | none => none) := by
  rw [arrLoop.eq_2]

theorem ol_succ (fuel : Nat) (c : Char) (rest : List Char) :
    objLoop (fuel + 1) (c :: rest) =
      (if c = '"' then
        match parseStringBody (rest.length + 1) rest with
        | some (kcs, rest2) =>
          match skipWs rest2 with
          | d :: rest3 =>
            if d = ':' then
              match parseVal fuel (skipWs rest3) with
              | some (v, rest4) =>
                match skipWs rest4 with
                | e :: rest5 =>
                  if e = ',' then
                    match objLoop fuel (skipWs rest5) with
                    | some (kvs, r) => some ((⟨kcs⟩, v) :: kvs, r)
                    | none => none
                  else if e = Char.ofNat 125 then some ([(⟨kcs⟩, v)], rest5)
                  else none
                | [] => none
              | none => none
            else none
          | [] => none
        | none => none
      else none) := by
  rw [objLoop.eq_3]

theorem numStop_nil : numStop [] = true := rfl

theorem numStop_comma (l : List Char) : numStop (',' :: l) = true := rfl

theorem numStop_rbracket (l : List Char) : numStop (']' :: l) = true := rfl

theorem numStop_rbrace (l : List Char) :
    numStop (Char.ofNat 125 :: l) = true := rfl

theorem skipWs_comma (l : List Char) : skipWs (',' :: l) = ',' :: l := rfl

theorem skipWs_space (l : List Char) : skipWs (' ' :: l) = skipWs l := rfl

theorem skipWs_rbracket (l : List Char) : skipWs (']' :: l) = ']' :: l := rfl

theorem skipWs_colon (l : List Char) : skipWs (':' :: l) = ':' :: l := rfl

theorem skipWs_rbrace (l : List Char) :
    skipWs (Char.ofNat 125 :: l) = Char.ofNat 125 :: l := rfl

theorem num_head_not_special (c : Char) (h : c.isDigit = true ∨ c = '-') :
    ¬c = Char.ofNat 123 ∧ ¬c = '[' ∧ ¬c = '"' ∧ ¬c = 't' ∧ ¬c = 'f' ∧
      ¬c = 'n' := by
  rcases h with h | rfl
  · exact ⟨fun hc => absurd h (by rw [hc]; decide),
      fun hc => absurd h (by rw [hc]; decide),
      fun hc => absurd h (by rw [hc]; decide),
      fun hc => absurd h (by rw [hc]; decide),
      fun hc => absurd h (by rw [hc]; decide),
      fun hc => absurd h (by rw [hc]; decide)⟩
  · exact ⟨by decide, by decide, by decide, by decide, by decide, by decide⟩

theorem intChars_head (i : Int) :
    ∃ c cs, intChars i = c :: cs ∧ (c.isDigit = true ∨ c = '-') := by
  rw [intChars]
  by_cases hneg : i < 0
  · rw [if_pos hneg]
    exact ⟨'-', _, rfl, Or.inr rfl⟩
  · rw [if_neg hneg]
    by_cases h0 : i.toNat = 0
    · rw [h0]
      have hn0 : natChars 0 = ['0'] := by
        rw [natChars]
        rfl
      rw [hn0]
      exact ⟨'0', [], rfl, Or.inl (by decide)⟩
    · obtain ⟨c, rest, heq, hdig, _, _⟩ := natChars_head_pos i.toNat (by omega)
      exact ⟨c, rest, heq, Or.inl hdig⟩

theorem encArrItems_head (x : JVal) (xs : List JVal) :
    ∃ l, encArrItems (x :: xs) = jsonEncode x ++ l := by
  cases xs with
  | nil => exact ⟨[], by rw [encArrItems, List.append_nil]⟩
  | cons y ys => exact ⟨',' :: ' ' :: encArrItems (y :: ys), rfl⟩

theorem skipWs_encArr (y : JVal) (ys : List JVal) (l : List Char) :
    skipWs (encArrItems (y :: ys) ++ l) = encArrItems (y :: ys) ++ l := by
  obtain ⟨l2, heq⟩ := encArrItems_head y ys
  rw [heq, List.append_assoc, skipWs_enc, ← List.append_assoc]

theorem encObjItems_head (k : String) (v : JVal)
    (r : List (String × JVal)) :
    ∃ l, encObjItems ((k, v) :: r) =
      '"' :: ((k.data.map escChar).flatten ++ ('"' :: (':' :: ' ' :: l))) := by
  cases r with
  | nil =>
    refine ⟨jsonEncode v, ?_⟩
    rw [encObjItems]
    simp [encStrChars, List.append_assoc]
  | cons e r2 =>
    refine ⟨jsonEncode v ++ ',' :: ' ' :: encObjItems (e :: r2), ?_⟩
    rw [encObjItems]
    simp [encStrChars, List.append_assoc]

theorem pv_arr_cons (fuel : Nat) (c0 : Char) (cs0 : List Char)
    (hws : isJsonWs c0 = false) (hrb : c0 ≠ ']') :
    parseVal (fuel + 1) ('[' :: c0 :: cs0) =
      (match arrLoop fuel (c0 :: cs0) with
      | some (vs, r) => some (.arr vs, r)
      | none => none) := by
  rw [pv_succ, if_neg (by decide : ¬('[' : Char) = Char.ofNat 123),
    if_pos rfl,
    show skipWs (c0 :: cs0) = c0 :: cs0 from by simp [skipWs, hws]]
  simp only [if_neg hrb]

theorem pv_obj_cons (fuel : Nat) (cs0 : List Char) :
    parseVal (fuel + 1) (Char.ofNat 123 :: '"' :: cs0) =
      (match objLoop fuel ('"' :: cs0) with
      | some (kvs, r) => some (.obj (pyDict kvs), r)
      | none => none) := by
  rw [pv_succ, if_pos rfl,
    show skipWs ('"' :: cs0) = '"' :: cs0 from rfl]
  simp only [if_neg (by decide : ¬('"' : Char) = Char.ofNat 125)]

theorem skipWs_encObj (k2 : String) (v2 : JVal) (r2 : List (String × JVal))
    (l : List Char) :
    skipWs (encObjItems ((k2, v2) :: r2) ++ l) =
      encObjItems ((k2, v2) :: r2) ++ l := by
  obtain ⟨l2, heq⟩ := encObjItems_head k2 v2 r2
  rw [heq]
  rfl

mutual

theorem parseVal_encode : ∀ (v : JVal), wfJ v = true →
    ∀ (fuel : Nat) (tail : List Char), (jsonEncode v).length < fuel →
    numStop tail = true →
    parseVal fuel (jsonEncode v ++ tail) = some (v, tail)
  | .null, _, fuel, tail, hlen, _ => by
    obtain ⟨f, rfl⟩ : ∃ f, fuel = f + 1 :=
      ⟨fuel - 1, by have := Nat.lt_of_le_of_lt (Nat.zero_le _) hlen; omega⟩
    rfl
  | .bool true, _, fuel, tail, hlen, _ => by
    obtain ⟨f, rfl⟩ : ∃ f, fuel = f + 1 :=
      ⟨fuel - 1, by have := Nat.lt_of_le_of_lt (Nat.zero_le _) hlen; omega⟩
    rfl
  | .bool false, _, fuel, tail, hlen, _ => by
    obtain ⟨f, rfl⟩ : ∃ f, fuel = f + 1 :=
      ⟨fuel - 1, by have := Nat.lt_of_le_of_lt (Nat.zero_le _) hlen; omega⟩
    rfl
  | .num i, _, fuel, tail, hlen, hstop => by
    obtain ⟨f, rfl⟩ : ∃ f, fuel = f + 1 :=
      ⟨fuel - 1, by have := Nat.lt_of_le_of_lt (Nat.zero_le _) hlen; omega⟩
    obtain ⟨c, cs, heq, hcd⟩ := intChars_head i
    obtain ⟨hn1, hn2, hn3, hn4, hn5, hn6⟩ := num_head_not_special c hcd
    have hshape : jsonEncode (.num i) ++ tail = c :: (cs ++ tail) := by
      rw [show jsonEncode (.num i) = intChars i from rfl, heq]
      rfl
    rw [hshape, pv_succ, if_neg hn1, if_neg hn2, if_neg hn3, if_neg hn4,
      if_neg hn5, if_neg hn6, show c :: (cs ++ tail) = (c :: cs) ++ tail
        from rfl, ← heq]
    exact parseNum_intChars i tail hstop
  | .str s, _, fuel, tail, hlen, _ => by
    obtain ⟨f, rfl⟩ : ∃ f, fuel = f + 1 :=
      ⟨fuel - 1, by have := Nat.lt_of_le_of_lt (Nat.zero_le _) hlen; omega⟩
    have hshape : jsonEncode (.str s) ++ tail =
        '"' :: ((s.data.map escChar).flatten ++ '"' :: tail) := by
      rw [show jsonEncode (.str s) = encStrChars s from rfl, encStrChars]
      simp
    rw [hshape, pv_succ,
      if_neg (by decide : ¬('"' : Char) = Char.ofNat 123),
      if_neg (by decide : ¬('"' : Char) = '['), if_pos rfl,
      parseStringBody_flat s.data _ tail (by simp [List.length_append]; omega)]
  | .arr [], _, fuel, tail, hlen, _ => by
    obtain ⟨f, rfl⟩ : ∃ f, fuel = f + 1 :=
      ⟨fuel - 1, by have := Nat.lt_of_le_of_lt (Nat.zero_le _) hlen; omega⟩
    rfl
  | .arr (x :: xs), hwf, fuel, tail, hlen, _ => by
    obtain ⟨f, rfl⟩ : ∃ f, fuel = f + 1 :=
      ⟨fuel - 1, by have := Nat.lt_of_le_of_lt (Nat.zero_le _) hlen; omega⟩
    have hwfa : wfArr (x :: xs) = true := by
      rw [wfJ] at hwf
      exact hwf
    obtain ⟨lrest, hitems⟩ := encArrItems_head x xs
    obtain ⟨c0, cs0, hx, hws0, hrb0, _, _⟩ := jsonEncode_head x
    have hshape : jsonEncode (.arr (x :: xs)) ++ tail =
        '[' :: (encArrItems (x :: xs) ++ ']' :: tail) := by
      rw [show jsonEncode (.arr (x :: xs)) =
        '[' :: encArrItems (x :: xs) ++ [']'] from rfl]
      simp
    have hinner : encArrItems (x :: xs) ++ ']' :: tail =
        c0 :: (cs0 ++ (lrest ++ ']' :: tail)) := by
      rw [hitems, hx]
      simp
    have hlen2 : (encArrItems (x :: xs)).length + 1 < f := by
      have : (jsonEncode (.arr (x :: xs))).length =
          (encArrItems (x :: xs)).length + 2 := by
        rw [show jsonEncode (.arr (x :: xs)) =
          '[' :: encArrItems (x :: xs) ++ [']'] from rfl]
        simp
      omega
    rw [hshape, hinner, pv_arr_cons f c0 _ hws0 hrb0, ← hinner,
      arrLoop_encode (x :: xs) (by simp) hwfa f tail hlen2]
  | .obj [], _, fuel, tail, hlen, _ => by
    obtain ⟨f, rfl⟩ : ∃ f, fuel = f + 1 :=
      ⟨fuel - 1, by have := Nat.lt_of_le_of_lt (Nat.zero_le _) hlen; omega⟩
    rfl
  | .obj ((k, v) :: r), hwf, fuel, tail, hlen, _ => by
    obtain ⟨f, rfl⟩ : ∃ f, fuel = f + 1 :=
      ⟨fuel - 1, by have := Nat.lt_of_le_of_lt (Nat.zero_le _) hlen; omega⟩
    have hwfs : keysNodup ((k, v) :: r) = true ∧ wfObj ((k, v) :: r) = true := by
      rw [wfJ] at hwf
      simp only [Bool.and_eq_true] at hwf
      exact hwf
    obtain ⟨l, hitems⟩ := encObjItems_head k v r
    have hshape : jsonEncode (.obj ((k, v) :: r)) ++ tail =
        Char.ofNat 123 :: '"' ::
          ((k.data.map escChar).flatten ++
            ('"' :: (':' :: ' ' :: l) ++ Char.ofNat 125 :: tail)) := by
      rw [show jsonEncode (.obj ((k, v) :: r)) =
        Char.ofNat 123 :: encObjItems ((k, v) :: r) ++ [Char.ofNat 125]
        from rfl, hitems]
      simp
    have hinner : encObjItems ((k, v) :: r) ++ Char.ofNat 125 :: tail =
        '"' :: ((k.data.map escChar).flatten ++
          ('"' :: (':' :: ' ' :: l) ++ Char.ofNat 125 :: tail)) := by
      rw [hitems]
      simp
    have hlen2 : (encObjItems ((k, v) :: r)).length + 1 < f := by
      have : (jsonEncode (.obj ((k, v) :: r))).length =
          (encObjItems ((k, v) :: r)).length + 2 := by
        rw [show jsonEncode (.obj ((k, v) :: r)) =
          Char.ofNat 123 :: encObjItems ((k, v) :: r) ++ [Char.ofNat 125]
          from rfl]
        simp
      omega
    rw [hshape, pv_obj_cons f _, ← hinner,
      objLoop_encode ((k, v) :: r) (by simp) hwfs.2 f tail hlen2]
    simp only [pyDict_eq_self _ hwfs.1]
termination_by v => sizeOf v

theorem arrLoop_encode : ∀ (xs : List JVal), xs ≠ [] → wfArr xs = true →
    ∀ (fuel : Nat) (tail : List Char), (encArrItems xs).length + 1 < fuel →
    arrLoop fuel (encArrItems xs ++ ']' :: tail) = some (xs, tail)
  | [], hne, _, _, _, _ => absurd rfl hne
  | [x], _, hwf, fuel, tail, hlen => by
    obtain ⟨f, rfl⟩ : ∃ f, fuel = f + 1 :=
      ⟨fuel - 1, by have := Nat.lt_of_le_of_lt (Nat.zero_le _) hlen; omega⟩
    have hwfx : wfJ x = true := by
      rw [wfArr] at hwf
      simp only [Bool.and_eq_true] at hwf
      exact hwf.1
    have hlenx : (jsonEncode x).length < f := by
      have : encArrItems [x] = jsonEncode x := by
        rw [encArrItems]
      rw [this] at hlen
      omega
    rw [show encArrItems [x] = jsonEncode x from by rw [encArrItems],
      al_succ,
      parseVal_encode x hwfx f (']' :: tail) hlenx (numStop_rbracket tail)]
    rfl
  | x :: y :: ys, _, hwf, fuel, tail, hlen => by
    obtain ⟨f, rfl⟩ : ∃ f, fuel = f + 1 :=
      ⟨fuel - 1, by have := Nat.lt_of_le_of_lt (Nat.zero_le _) hlen; omega⟩
    have hwfx : wfJ x = true ∧ wfArr (y :: ys) = true := by
      rw [wfArr] at hwf
      simp only [Bool.and_eq_true] at hwf
      exact hwf
    have hitems : encArrItems (x :: y :: ys) =
        jsonEncode x ++ ',' :: ' ' :: encArrItems (y :: ys) := rfl
    have hlens : (jsonEncode x).length + 2 +
        (encArrItems (y :: ys)).length = (encArrItems (x :: y :: ys)).length := by
      rw [hitems]
      simp
      omega
    have hshape : encArrItems (x :: y :: ys) ++ ']' :: tail =
        jsonEncode x ++ (',' :: ' ' :: (encArrItems (y :: ys) ++ ']' :: tail)) := by
      rw [hitems]
      simp
    rw [hshape, al_succ,
      parseVal_encode x hwfx.1 f
        (',' :: ' ' :: (encArrItems (y :: ys) ++ ']' :: tail))
        (by omega) (numStop_comma _)]
    show (match skipWs (',' :: ' ' :: (encArrItems (y :: ys) ++ ']' :: tail)) with
      | d :: rest2 =>
        if d = ',' then
          match arrLoop f (skipWs rest2) with
          | some (vs, r) => some (x :: vs, r)
          | none => none
        else if d = ']' then some ([x], rest2)
        else none
      | [] => none) = some (x :: y :: ys, tail)
    rw [skipWs_comma]
    simp only [if_pos rfl]
    rw [skipWs_space, skipWs_encArr,
      arrLoop_encode (y :: ys) (by simp) hwfx.2 f tail (by omega)]
    rfl
termination_by xs => sizeOf xs

theorem objLoop_encode : ∀ (kvs : List (String × JVal)), kvs ≠ [] →
    wfObj kvs = true →
    ∀ (fuel : Nat) (tail : List Char), (encObjItems kvs).length + 1 < fuel →
    objLoop fuel (encObjItems kvs ++ Char.ofNat 125 :: tail) =
      some (kvs, tail)
  | [], hne, _, _, _, _ => absurd rfl hne
  | [(k, v)], _, hwf, fuel, tail, hlen => by
    obtain ⟨f, rfl⟩ : ∃ f, fuel = f + 1 :=
      ⟨fuel - 1, by have := Nat.lt_of_le_of_lt (Nat.zero_le _) hlen; omega⟩
    have hwfv : wfJ v = true := by
      rw [wfObj] at hwf
      simp only [Bool.and_eq_true] at hwf
      exact hwf.1
    have hitems : encObjItems [(k, v)] =
        '"' :: ((k.data.map escChar).flatten ++
          ('"' :: (':' :: ' ' :: jsonEncode v))) := by
      rw [encObjItems, encStrChars]
      simp
    have hlenv : (jsonEncode v).length < f := by
      rw [hitems] at hlen
      simp [List.length_append] at hlen
      omega
    rw [hitems]
    show objLoop (f + 1) ('"' :: ((k.data.map escChar).flatten ++
      ('"' :: (':' :: ' ' :: jsonEncode v)) ++ Char.ofNat 125 :: tail)) =
      some ([(k, v)], tail)
    rw [ol_succ, if_pos rfl]
    have hsb : (k.data.map escChar).flatten ++
        ('"' :: (':' :: ' ' :: jsonEncode v)) ++ Char.ofNat 125 :: tail =
        (k.data.map escChar).flatten ++
          '"' :: (':' :: ' ' :: (jsonEncode v ++ Char.ofNat 125 :: tail)) := by
      simp
    rw [hsb, parseStringBody_flat k.data _ _ (by simp [List.length_append]; omega)]
    show (match skipWs (':' :: ' ' :: (jsonEncode v ++ Char.ofNat 125 :: tail)) with
      | d :: rest3 =>
        if d = ':' then
          match parseVal f (skipWs rest3) with
          | some (v2, rest4) =>
            match skipWs rest4 with
            | e :: rest5 =>
              if e = ',' then
                match objLoop f (skipWs rest5) with
                | some (kvs, r) => some ((⟨k.data⟩, v2) :: kvs, r)
                | none => none
              else if e = Char.ofNat 125 then some ([(⟨k.data⟩, v2)], rest5)
              else none
            | [] => none
          | none => none
        else none
      | [] => none) = some ([(k, v)], tail)
    rw [skipWs_colon]
    simp only [if_pos rfl]
    rw [skipWs_space, skipWs_enc,
      parseVal_encode v hwfv f (Char.ofNat 125 :: tail) hlenv
        (numStop_rbrace tail)]
    rfl
  | (k, v) :: (k2, v2) :: r2, _, hwf, fuel, tail, hlen => by
    obtain ⟨f, rfl⟩ : ∃ f, fuel = f + 1 :=
      ⟨fuel - 1, by have := Nat.lt_of_le_of_lt (Nat.zero_le _) hlen; omega⟩
    have hwfv : wfJ v = true ∧ wfObj ((k2, v2) :: r2) = true := by
      rw [wfObj] at hwf
      simp only [Bool.and_eq_true] at hwf
      exact hwf
    have hitems : encObjItems ((k, v) :: (k2, v2) :: r2) =
        '"' :: ((k.data.map escChar).flatten ++
          ('"' :: (':' :: ' ' :: (jsonEncode v ++
            ',' :: ' ' :: encObjItems ((k2, v2) :: r2))))) := by
      rw [encObjItems, encStrChars]
      simp
    rw [hitems] at hlen
    simp only [List.length_cons, List.length_append] at hlen
    have hlenv : (jsonEncode v).length < f := by omega
    have hlen3 : (encObjItems ((k2, v2) :: r2)).length + 1 < f := by omega
    rw [hitems]
    show objLoop (f + 1) ('"' :: ((k.data.map escChar).flatten ++
      ('"' :: (':' :: ' ' :: (jsonEncode v ++
        ',' :: ' ' :: encObjItems ((k2, v2) :: r2)))) ++
      Char.ofNat 125 :: tail)) = some ((k, v) :: (k2, v2) :: r2, tail)
    rw [ol_succ, if_pos rfl]
    have hsb : (k.data.map escChar).flatten ++
        ('"' :: (':' :: ' ' :: (jsonEncode v ++
          ',' :: ' ' :: encObjItems ((k2, v2) :: r2)))) ++
        Char.ofNat 125 :: tail =
        (k.data.map escChar).flatten ++
          '"' :: (':' :: ' ' :: (jsonEncode v ++
            ',' :: ' ' :: (encObjItems ((k2, v2) :: r2) ++
              Char.ofNat 125 :: tail))) := by
      simp
    rw [hsb, parseStringBody_flat k.data _ _ (by simp [List.length_append]; omega)]
    show (match skipWs (':' :: ' ' :: (jsonEncode v ++
        ',' :: ' ' :: (encObjItems ((k2, v2) :: r2) ++
          Char.ofNat 125 :: tail))) with
      | d :: rest3 =>
        if d = ':' then
          match parseVal f (skipWs rest3) with
          | some (v3, rest4) =>
            match skipWs rest4 with
            | e :: rest5 =>
              if e = ',' then
                match objLoop f (skipWs rest5) with
                | some (kvs, r) => some ((⟨k.data⟩, v3) :: kvs, r)
                | none => none
              else if e = Char.ofNat 125 then some ([(⟨k.data⟩, v3)], rest5)
              else none
            | [] => none
          | none => none
        else none
      | [] => none) = some ((k, v) :: (k2, v2) :: r2, tail)
    rw [skipWs_colon]
    simp only [if_pos rfl]
    rw [skipWs_space, skipWs_enc,
      parseVal_encode v hwfv.1 f
        (',' :: ' ' :: (encObjItems ((k2, v2) :: r2) ++ Char.ofNat 125 :: tail))
        hlenv (numStop_comma _)]
    show (match skipWs (',' :: ' ' :: (encObjItems ((k2, v2) :: r2) ++
        Char.ofNat 125 :: tail)) with
      | e :: rest5 =>
        if e = ',' then
          match objLoop f (skipWs rest5) with
          | some (kvs, r) => some ((⟨k.data⟩, v) :: kvs, r)
          | none => none
        else if e = Char.ofNat 125 then some ([(⟨k.data⟩, v)], rest5)
        else none
      | [] => none) = some ((k, v) :: (k2, v2) :: r2, tail)
    rw [skipWs_comma]
    simp only [if_pos rfl]
    rw [skipWs_space, skipWs_encObj,
      objLoop_encode ((k2, v2) :: r2) (by simp) hwfv.2 f tail hlen3]
    rfl
termination_by kvs => sizeOf kvs

end

theorem jsonParse_encode (v : JVal) (hwf : wfJ v = true) :
    jsonParse ⟨jsonEncode v⟩ = some v := by
  rw [jsonParse]
  show (match parseVal ((jsonEncode v).length + 1) (skipWs (jsonEncode v)) with
    | some (w, rest) => if skipWs rest = [] then some w else none
    | none => none) = some v
  have hskip : skipWs (jsonEncode v) = jsonEncode v := by
    have := skipWs_enc v []
    simpa using this
  rw [hskip]
  have hpv := parseVal_encode v hwf ((jsonEncode v).length + 1) []
    (by omega) numStop_nil
  rw [List.append_nil] at hpv
  rw [hpv]
  rfl

theorem pyStrip_enc_obj (kvs : List (String × JVal)) :
    pyStrip ⟨jsonEncode (.obj kvs) ++ ['\n']⟩ = ⟨jsonEncode (.obj kvs)⟩ := by
  have henc : jsonEncode (.obj kvs) =
      Char.ofNat 123 :: (encObjItems kvs ++ [Char.ofNat 125]) := by
    rw [jsonEncode, List.cons_append]
  rw [henc, pyStrip]
  show String.mk ((((Char.ofNat 123 :: (encObjItems kvs ++ [Char.ofNat 125]) ++
    ['\n']).dropWhile pyIsSpace).reverse.dropWhile pyIsSpace).reverse) = _
  rw [List.cons_append, List.dropWhile_cons,
    if_neg (show ¬ pyIsSpace (Char.ofNat 123) = true from by decide)]
  have h2 : (Char.ofNat 123 :: ((encObjItems kvs ++ [Char.ofNat 125]) ++
      ['\n'])).reverse = '\n' :: Char.ofNat 125 ::
      (Char.ofNat 123 :: encObjItems kvs).reverse := by
    simp
  rw [h2, List.dropWhile_cons,
    if_pos (show pyIsSpace '\n' = true from by decide),
    List.dropWhile_cons,
    if_neg (show ¬ pyIsSpace (Char.ofNat 125) = true from by decide)]
  simp

theorem decodeLine_sentinel_obj (kvs : List (String × JVal))
    (hwf : wfJ (.obj kvs) = true) :
    decodeLine ("__IPC__:" ++ String.mk (jsonEncode (.obj kvs)) ++ "\n") =
      some (.obj kvs) := by
  have hdata : ("__IPC__:" ++ String.mk (jsonEncode (.obj kvs)) ++
      "\n").data = "__IPC__:".data ++ (jsonEncode (.obj kvs) ++ ['\n']) := by
    have h0 : ("__IPC__:" ++ String.mk (jsonEncode (.obj kvs)) ++
        "\n").data = ("__IPC__:".data ++ jsonEncode (.obj kvs)) ++ ['\n'] :=
      rfl
    rw [h0, List.append_assoc]
  rw [decodeLine]
  have htake : strTake ("__IPC__:" ++ String.mk (jsonEncode (.obj kvs)) ++
      "\n") 8 = "__IPC__:" := by
    rw [strTake, hdata, show (8 : Nat) = ("__IPC__:".data).length from rfl,
      List.take_left]
  rw [if_pos htake]
  have hdrop : strDrop ("__IPC__:" ++ String.mk (jsonEncode (.obj kvs)) ++
      "\n") 8 = ⟨jsonEncode (.obj kvs) ++ ['\n']⟩ := by
    rw [strDrop, hdata, show (8 : Nat) = ("__IPC__:".data).length from rfl,
      List.drop_left]
  rw [hdrop]
  have hstrip := pyStrip_enc_obj kvs
  rw [show (⟨jsonEncode (.obj kvs) ++ ['\n']⟩ : String) =
    (⟨jsonEncode (JVal.obj kvs) ++ ['\n']⟩ : String) from rfl, hstrip]
  exact jsonParse_encode _ hwf

theorem decodeLine_encodeCommand_obj (kvs : List (String × JVal)) :
    decodeLine (encodeCommand (.obj kvs)) = none := by
  rw [decodeLine, if_neg]
  intro hcontra
  have hd : (encodeCommand (JVal.obj kvs)).data.take 8 = "__IPC__:".data :=
    congrArg String.data hcontra
  have hdata : (encodeCommand (.obj kvs)).data =
      Char.ofNat 123 :: (encObjItems kvs ++ [Char.ofNat 125] ++ ['\n']) := by
    show jsonEncode (JVal.obj kvs) ++ ['\n'] = _
    rw [jsonEncode]
    simp [List.append_assoc]
  rw [hdata, show (8 : Nat) = 7 + 1 from rfl, List.take_succ_cons] at hd
  have h8 : "__IPC__:".data = '_' :: "_IPC__:".data := rfl
  rw [h8] at hd
  injection hd with h1 h2
  exact absurd h1 (by decide)

/-- C3 counterexample: the lines `run_parser` actually writes to the
worker's stdin (`json.dumps(cmd) + "\n"`, line 168) carry no
`__IPC__:` sentinel, so the drain thread's decoder (lines 157-159)
discards them entirely: `decode(encode(command))` is `none` for the
concrete `set-report-code` command, not an Event sharing its id and
message kind. -/
theorem c3_counterexample :
    decodeLine (encodeCommand (setReportCodeCmd "R3TEST")) = none := rfl

/-- C3 (corrected): encoding alone does not round-trip, because
outbound command lines carry no `__IPC__:` sentinel and the drain
thread discards them (fourth conjunct); but whenever a command-shaped
record with a message kind and a correlation id is framed the way the
worker frames its own protocol lines - sentinel prefix plus the
`json.dumps` serialization plus a newline - the drain thread's decoder
recovers exactly the original record, and in particular its message
kind and correlation id are preserved (first three conjuncts). -/
theorem c3_sentinel_roundtrip (kind : String) (ident : Int)
    (rest : List (String × JVal))
    (hwf : wfJ (.obj (("message", .str kind) :: ("id", .num ident) ::
      rest)) = true) :
    decodeLine ("__IPC__:" ++ String.mk (jsonEncode (.obj (("message",
        .str kind) :: ("id", .num ident) :: rest))) ++ "\n") =
      some (.obj (("message", .str kind) :: ("id", .num ident) :: rest)) ∧
    jGet (.obj (("message", .str kind) :: ("id", .num ident) :: rest))
      "message" = some (.str kind) ∧
    jGet (.obj (("message", .str kind) :: ("id", .num ident) :: rest))
      "id" = some (.num ident) ∧
    decodeLine (encodeCommand (.obj (("message", .str kind) ::
      ("id", .num ident) :: rest))) = none := by
  refine ⟨decodeLine_sentinel_obj _ hwf, ?_, ?_,
    decodeLine_encodeCommand_obj _⟩
  · rfl
  · rfl

/-- Witness for C3 at the concrete `set-report-code` command. -/
theorem c3_sentinel_roundtrip_witness :
    decodeLine ("__IPC__:" ++ String.mk (jsonEncode (.obj (("message",
        .str "set-report-code") :: ("id", .num 0) ::
        [("reportCode", .str "R3TEST")]))) ++ "\n") =
      some (.obj (("message", .str "set-report-code") :: ("id", .num 0) ::
        [("reportCode", .str "R3TEST")])) ∧
    jGet (.obj (("message", .str "set-report-code") :: ("id", .num 0) ::
      [("reportCode", .str "R3TEST")])) "message" =
      some (.str "set-report-code") ∧
    jGet (.obj (("message", .str "set-report-code") :: ("id", .num 0) ::
      [("reportCode", .str "R3TEST")])) "id" = some (.num 0) ∧
    decodeLine (encodeCommand (.obj (("message",
      .str "set-report-code") :: ("id", .num 0) ::
      [("reportCode", .str "R3TEST")]))) = none :=
  c3_sentinel_roundtrip "set-report-code" 0 [("reportCode", .str "R3TEST")]
    (by decide)

theorem drainOutput_skip (line : String) (ys : List String)
    (hline : line.isEmpty = false) (hnone : decodeLine line = none) :
    ∀ xs : List String, (∀ l ∈ xs, l.isEmpty = false) →
      drainOutput (xs ++ line :: ys) = drainOutput (xs ++ ys)
  | [], _ => by
    rw [List.nil_append, List.nil_append, drainOutput, drainOutput,
      List.takeWhile_cons]
    simp only [hline, Bool.not_false, if_true]
    rw [List.filterMap_cons_none hnone]
  | x :: xs, h => by
    have hx : x.isEmpty = false := h x (List.mem_cons_self _ _)
    have ih := drainOutput_skip line ys hline hnone xs
      (fun l hl => h l (List.mem_cons_of_mem _ hl))
    rw [List.cons_append, List.cons_append, drainOutput, drainOutput,
      List.takeWhile_cons, List.takeWhile_cons]
    simp only [hx, Bool.not_false, if_true]
    rw [List.filterMap_cons, List.filterMap_cons]
    rw [drainOutput, drainOutput] at ih
    rw [ih]

/-- C4: decoding in the drain thread is a total function and no error
reaches the caller: a line without the `__IPC__:` sentinel prefix
yields no event (first conjunct), a sentinel line whose remainder
fails to parse yields no event (second conjunct, the bare `except` at
lines 161-162), and in either case the offending line is simply
skipped - the events drained from the surrounding lines are exactly
those drained when the line is absent, so the stream is not aborted
(third conjunct). -/
theorem c4_decode_total_nonfatal (line : String) (xs ys : List String) :
    (strTake line 8 ≠ "__IPC__:" → decodeLine line = none) ∧
    (jsonParse (pyStrip (strDrop line 8)) = none →
      decodeLine line = none) ∧
    (decodeLine line = none → line.isEmpty = false →
      (∀ l ∈ xs, l.isEmpty = false) →
      drainOutput (xs ++ line :: ys) = drainOutput (xs ++ ys)) := by
  refine ⟨?_, ?_, ?_⟩
  · intro h
    rw [decodeLine, if_neg h]
  · intro h
    by_cases hc : strTake line 8 = "__IPC__:"
    · rw [decodeLine, if_pos hc, h]
    · rw [decodeLine, if_neg hc]
  · intro h1 h2 h3
    exact drainOutput_skip line ys h2 h1 xs h3

/-- Witness for C4 at a concrete non-protocol line sitting between two
protocol lines. -/
theorem c4_decode_total_nonfatal_witness :
    decodeLine "plain log line" = none ∧
    drainOutput (["__IPC__:true"] ++ "plain log line" :: ["x"]) =
      drainOutput (["__IPC__:true"] ++ ["x"]) := by
  have h := c4_decode_total_nonfatal "plain log line" ["__IPC__:true"] ["x"]
  refine ⟨h.1 (by decide), h.2.2 rfl rfl ?_⟩
  intro l hl
  rw [List.mem_singleton] at hl
  subst hl
  rfl
